import Mathlib

set_option maxRecDepth 1000000

/-!
Verification of the `doit` capability broker against its specification.

The Go sources are shallowly embedded: machine integers become `Nat`/`Int`
with explicit reduction modulo `2 ^ 32` where overflow matters, byte strings
become `List Nat` (each element below 256), fallible operations return
`Option`/`Except`, and file/process state is passed explicitly.
-/

namespace Doit

/-! ## Bytes and UTF-8 -/

/-- UTF-8 encoding of one Unicode code point, as bytes (each below 256). -/
def utf8Encode (c : Nat) : List Nat :=
  if c < 0x80 then [c]
  else if c < 0x800 then
    [0xC0 ||| (c >>> 6), 0x80 ||| (c &&& 0x3F)]
  else if c < 0x10000 then
    [0xE0 ||| (c >>> 12), 0x80 ||| ((c >>> 6) &&& 0x3F), 0x80 ||| (c &&& 0x3F)]
  else
    [0xF0 ||| (c >>> 18), 0x80 ||| ((c >>> 12) &&& 0x3F),
     0x80 ||| ((c >>> 6) &&& 0x3F), 0x80 ||| (c &&& 0x3F)]

/-- The UTF-8 bytes of a string (Go strings are byte slices holding UTF-8). -/
def strBytes (s : String) : List Nat :=
  s.data.flatMap (fun c => utf8Encode c.toNat)

/-! ## SHA-256 (crypto/sha256), on `Nat` words reduced mod `2 ^ 32` -/

/-- Truncate to a 32-bit word. -/
def w32 (n : Nat) : Nat := n % 4294967296

/-- Rotate a 32-bit word right by `k` bits. -/
def rotr (k x : Nat) : Nat := w32 ((x >>> k) ||| (x <<< (32 - k)))

/-- SHA-256 round constants. -/
def sha256K : List Nat :=
  [1116352408, 1899447441, 3049323471, 3921009573, 961987163,
   1508970993, 2453635748, 2870763221, 3624381080, 310598401,
   607225278, 1426881987, 1925078388, 2162078206, 2614888103,
   3248222580, 3835390401, 4022224774, 264347078, 604807628,
   770255983, 1249150122, 1555081692, 1996064986, 2554220882,
   2821834349, 2952996808, 3210313671, 3336571891, 3584528711,
   113926993, 338241895, 666307205, 773529912, 1294757372,
   1396182291, 1695183700, 1986661051, 2177026350, 2456956037,
   2730485921, 2820302411, 3259730800, 3345764771, 3516065817,
   3600352804, 4094571909, 275423344, 430227734, 506948616,
   659060556, 883997877, 958139571, 1322822218, 1537002063,
   1747873779, 1955562222, 2024104815, 2227730452, 2361852424,
   2428436474, 2756734187, 3204031479, 3329325298]

/-- SHA-256 initial hash state. -/
def sha256H0 : List Nat :=
  [1779033703, 3144134277, 1013904242, 2773480762,
   1359893119, 2600822924, 528734635, 1541459225]

/-- Append SHA-256 padding: a 0x80 byte, zeros, and the 64-bit big-endian
bit length, reaching a multiple of 64 bytes. -/
def sha256Pad (msg : List Nat) : List Nat :=
  let len := msg.length
  let zeros := (64 + 55 - (len % 64)) % 64
  let bitLen := len * 8
  msg ++ [0x80] ++ List.replicate zeros 0 ++
    [(bitLen >>> 56) % 256, (bitLen >>> 48) % 256, (bitLen >>> 40) % 256,
     (bitLen >>> 32) % 256, (bitLen >>> 24) % 256, (bitLen >>> 16) % 256,
     (bitLen >>> 8) % 256, bitLen % 256]

/-- Big-endian 32-bit words from bytes (length a multiple of 4). -/
def bytesToWords : List Nat → List Nat
  | a :: b :: c :: d :: rest => (((a * 256 + b) * 256 + c) * 256 + d) :: bytesToWords rest
  | _ => []

/-- Split into blocks of 16 words (`cur` holds the current block reversed). -/
def toBlocksAux : List Nat → List Nat → List (List Nat)
  | [], cur => if cur.isEmpty then [] else [cur.reverse]
  | w :: ws, cur =>
    if cur.length = 15 then (w :: cur).reverse :: toBlocksAux ws []
    else toBlocksAux ws (w :: cur)

/-- Split into blocks of 16 words. -/
def toBlocks (ws : List Nat) : List (List Nat) := toBlocksAux ws []

/-- Extend a 16-word block to the 64-word message schedule.
`acc` is the reversed schedule so far. -/
def sha256Extend (acc : List Nat) : Nat → List Nat
  | 0 => acc.reverse
  | k + 1 =>
    let w15 := acc.getD 14 0
    let w2 := acc.getD 1 0
    let w16 := acc.getD 15 0
    let w7 := acc.getD 6 0
    let s0 := (rotr 7 w15) ^^^ (rotr 18 w15) ^^^ (w15 >>> 3)
    let s1 := (rotr 17 w2) ^^^ (rotr 19 w2) ^^^ (w2 >>> 10)
    sha256Extend (w32 (w16 + s0 + w7 + s1) :: acc) k

/-- One SHA-256 compression round. State is the 8-tuple as a list. -/
def sha256Round (st : List Nat) (kw : Nat × Nat) : List Nat :=
  match st with
  | [a, b, c, d, e, f, g, h] =>
    let s1 := (rotr 6 e) ^^^ (rotr 11 e) ^^^ (rotr 25 e)
    let ch := (e &&& f) ^^^ ((0xffffffff ^^^ e) &&& g)
    let t1 := w32 (h + s1 + ch + kw.1 + kw.2)
    let s0 := (rotr 2 a) ^^^ (rotr 13 a) ^^^ (rotr 22 a)
    let mj := (a &&& b) ^^^ (a &&& c) ^^^ (b &&& c)
    let t2 := w32 (s0 + mj)
    [w32 (t1 + t2), a, b, c, w32 (d + t1), e, f, g]
  | st => st

/-- Compress one block into the running hash state. -/
def sha256Block (h : List Nat) (block : List Nat) : List Nat :=
  let sched := sha256Extend block.reverse 48
  let st := (sha256K.zip sched).foldl sha256Round h
  (h.zip st).map (fun p => w32 (p.1 + p.2))

/-- SHA-256 digest (32 bytes) of a byte list. -/
def sha256 (msg : List Nat) : List Nat :=
  let final := (toBlocks (bytesToWords (sha256Pad msg))).foldl sha256Block sha256H0
  final.flatMap (fun word =>
    [(word >>> 24) % 256, (word >>> 16) % 256, (word >>> 8) % 256, word % 256])

/-- Lowercase hex digit. -/
def hexDigit (n : Nat) : Char :=
  "0123456789abcdef".data.getD n '0'

/-- Lowercase hex of a byte list (Go `fmt.Sprintf("%x", h)`). -/
def hexBytes (bs : List Nat) : String :=
  String.mk (bs.flatMap (fun b => [hexDigit (b / 16), hexDigit (b % 16)]))

/-- Hex SHA-256 of a byte list. -/
def sha256hex (msg : List Nat) : String := hexBytes (sha256 msg)

/-! ## Audit entries (internal/audit/entry.go)

`Entry` mirrors the Go struct field for field. `time.Time` is kept as its
RFC3339 rendering (the code never inspects it), and the `float64`
millisecond duration is kept as the exact microsecond count produced by
`duration.Microseconds()` (division by 1000 happens at serialization;
the quotient is exactly representable, so the Go shortest float rendering
is the plain decimal). -/

structure Entry where
  seq : Nat
  ts : String
  prevHash : String
  pipeline : String
  segments : List String
  tiers : List String
  retry : Bool
  exitCode : Int
  error : String
  durationUs : Nat
  cwd : String
  policyLevel : Nat
  policyResult : String
  policyRuleID : String
  justification : String
  safetyArg : String
  hash : String
deriving DecidableEq

/-! ## JSON serialization (encoding/json, for the fields of `Entry`) -/

/-- Go `encoding/json` string escaping (HTML escaping on, as in
`json.Marshal`): quote, backslash, the three HTML characters, newline,
carriage return, tab, other control characters, and U+2028/U+2029. -/
def jsonEscapeChar (c : Char) : List Char :=
  if c = '"' then ['\\', '"']
  else if c = '\\' then ['\\', '\\']
  else if c = '\n' then ['\\', 'n']
  else if c = '\r' then ['\\', 'r']
  else if c = '\t' then ['\\', 't']
  else if c.toNat < 0x20 then
    ['\\', 'u', '0', '0', hexDigit (c.toNat / 16), hexDigit (c.toNat % 16)]
  else if c = '<' then ['\\', 'u', '0', '0', '3', 'c']
  else if c = '>' then ['\\', 'u', '0', '0', '3', 'e']
  else if c = '&' then ['\\', 'u', '0', '0', '2', '6']
  else if c.toNat = 0x2028 then ['\\', 'u', '2', '0', '2', '8']
  else if c.toNat = 0x2029 then ['\\', 'u', '2', '0', '2', '9']
  else [c]

/-- A JSON string literal with Go escaping. -/
def jsonQuote (s : String) : String :=
  String.mk ('"' :: s.data.flatMap jsonEscapeChar ++ ['"'])

/-- `strings.HasPrefix` (byte prefix; code-point prefix coincides for
valid UTF-8). -/
def hasPrefixStr (s pre : String) : Bool :=
  pre.data.isPrefixOf s.data

/-- Join strings with a separator. -/
def joinSep (sep : String) : List String → String
  | [] => ""
  | [x] => x
  | x :: xs => x ++ sep ++ joinSep sep xs

/-- A JSON array of strings. (A nil Go slice would render as `null`;
the model always renders a list, matching non-nil slices.) -/
def jsonStrList (xs : List String) : String :=
  "[" ++ joinSep "," (xs.map jsonQuote) ++ "]"

/-- Strip trailing zero characters. -/
def trimZeros (s : List Char) : List Char :=
  (s.reverse.dropWhile (fun c => c = '0')).reverse

/-- Three-digit zero-padded decimal below 1000. -/
def pad3 (n : Nat) : List Char :=
  [hexDigit (n / 100 % 10), hexDigit (n / 10 % 10), hexDigit (n % 10)]

/-- Rendering of `duration_ms`: the Go shortest-round-trip form of
`float64(us) / 1000.0`, which for exact thousandths is the decimal with
trailing fraction zeros trimmed. -/
def durationStr (us : Nat) : String :=
  if us % 1000 = 0 then toString (us / 1000)
  else toString (us / 1000) ++ "." ++ String.mk (trimZeros (pad3 (us % 1000)))

/-- `json.Marshal` of an `Entry`: object keys in struct order, honoring
the `omitempty` tags carried by retry, error, and the policy fields. -/
def marshalEntry (e : Entry) : String :=
  "\x7b\"seq\":" ++ toString e.seq
  ++ ",\"ts\":" ++ jsonQuote e.ts
  ++ ",\"prev_hash\":" ++ jsonQuote e.prevHash
  ++ ",\"pipeline\":" ++ jsonQuote e.pipeline
  ++ ",\"segments\":" ++ jsonStrList e.segments
  ++ ",\"tiers\":" ++ jsonStrList e.tiers
  ++ (if e.retry then ",\"retry\":true" else "")
  ++ ",\"exit_code\":" ++ toString e.exitCode
  ++ (if e.error = "" then "" else ",\"error\":" ++ jsonQuote e.error)
  ++ ",\"duration_ms\":" ++ durationStr e.durationUs
  ++ ",\"cwd\":" ++ jsonQuote e.cwd
  ++ (if e.policyLevel = 0 then "" else ",\"policy_level\":" ++ toString e.policyLevel)
  ++ (if e.policyResult = "" then "" else ",\"policy_result\":" ++ jsonQuote e.policyResult)
  ++ (if e.policyRuleID = "" then "" else ",\"policy_rule_id\":" ++ jsonQuote e.policyRuleID)
  ++ (if e.justification = "" then "" else ",\"justification\":" ++ jsonQuote e.justification)
  ++ (if e.safetyArg = "" then "" else ",\"safety_arg\":" ++ jsonQuote e.safetyArg)
  ++ ",\"hash\":" ++ jsonQuote e.hash
  ++ "\x7d"

/-! ## Audit logger (internal/audit/logger.go) -/

/-- `genesisHash()`: hex SHA-256 of the ASCII string `doit-genesis`. -/
def genesisHash : String := sha256hex (strBytes "doit-genesis")

/-- `computeHash(e)`: hex SHA-256 of the canonical JSON of `e` with the
hash field blanked. -/
def computeHash (e : Entry) : String :=
  sha256hex (strBytes (marshalEntry { e with hash := "" }))

/-- The in-memory state of `audit.Logger`: sequence counter and
previous-hash cursor. -/
structure LoggerState where
  seq : Nat
  prevHash : String
deriving DecidableEq

/-- The caller-supplied arguments of one `Logger.Log` call (plus the
current wall-clock rendering that `time.Now().UTC()` would produce). -/
structure LogPayload where
  pipeline : String
  ts : String
  segments : List String
  tiers : List String
  exitCode : Int
  error : String
  durationUs : Nat
  cwd : String
  retry : Bool
deriving DecidableEq

/-- `NewLogger` seeding: parse the last line if any; a parsed last entry
seeds the counter and cursor, anything else leaves seq 0 and the genesis
cursor. Each element of `lines` is the result of `json.Unmarshal` on one
non-empty line (`none` = the line does not parse as an `Entry`). -/
def newLogger (lines : List (Option Entry)) : LoggerState :=
  match lines.getLast? with
  | some (some e) => { seq := e.seq, prevHash := e.hash }
  | _ => { seq := 0, prevHash := genesisHash }

/-- One successful `Logger.Log` call: bump the sequence, build the entry,
hash it with the hash field empty, and advance the cursor. -/
def logStep (st : LoggerState) (p : LogPayload) : LoggerState × Entry :=
  let e0 : Entry :=
    { seq := st.seq + 1, ts := p.ts, prevHash := st.prevHash,
      pipeline := p.pipeline, segments := p.segments, tiers := p.tiers,
      retry := p.retry, exitCode := p.exitCode, error := p.error,
      durationUs := p.durationUs, cwd := p.cwd,
      policyLevel := 0, policyResult := "", policyRuleID := "",
      justification := "", safetyArg := "", hash := "" }
  let e := { e0 with hash := computeHash e0 }
  ({ seq := e.seq, prevHash := e.hash }, e)

/-- A sequence of successful `Logger.Log` calls, returning the final state
and the appended lines in order. -/
def runLog (st : LoggerState) : List LogPayload → LoggerState × List Entry
  | [] => (st, [])
  | p :: ps =>
    let (st1, e) := logStep st p
    let (st2, es) := runLog st1 ps
    (st2, e :: es)

/-! ## Audit verifier (internal/audit/verify.go) -/

/-- How one walk of `Verify` stops, with the 1-based line at which it
stops: an error return naming that line (unparsable JSON, a sequence gap,
a prev-hash mismatch, or a hash mismatch), or a runtime crash. `Verify`
formats the two mismatch errors with `entry.PrevHash[:16]` and
`entry.Hash[:16]`; Go string slicing panics when the stored string holds
fewer than 16 bytes, so on such a line the program crashes while
formatting the error instead of returning it. `panicSlice` records the
line at which that crash happens; the printed panic names no line. -/
inductive VerifyStop where
  | invalidJSON (line : Nat)
  | seqGap (line : Nat)
  | prevHashMismatch (line : Nat)
  | hashMismatch (line : Nat)
  | panicSlice (line : Nat)
deriving DecidableEq

/-- The 1-based line at which the walk stops. -/
def VerifyStop.line : VerifyStop → Nat
  | .invalidJSON k => k
  | .seqGap k => k
  | .prevHashMismatch k => k
  | .hashMismatch k => k
  | .panicSlice k => k

/-- Shift a stop one line down. -/
def VerifyStop.bump : VerifyStop → VerifyStop
  | .invalidJSON k => .invalidJSON (k + 1)
  | .seqGap k => .seqGap (k + 1)
  | .prevHashMismatch k => .prevHashMismatch (k + 1)
  | .hashMismatch k => .hashMismatch (k + 1)
  | .panicSlice k => .panicSlice (k + 1)

/-- Shift a stop `i` lines down. -/
def VerifyStop.bumpN (i : Nat) : VerifyStop → VerifyStop
  | .invalidJSON k => .invalidJSON (k + i)
  | .seqGap k => .seqGap (k + i)
  | .prevHashMismatch k => .prevHashMismatch (k + i)
  | .hashMismatch k => .hashMismatch (k + i)
  | .panicSlice k => .panicSlice (k + i)

/-- Whether `s[:16]` is in bounds for a Go string: at least 16 UTF-8
bytes. -/
def sliceablePrefix16 (s : String) : Bool := 16 ≤ (strBytes s).length

/-- The loop of `Verify`, one line at a time: unparsable JSON, a sequence
gap, a broken prev-hash link, or a hash mismatch stop the walk (`none` =
the whole file checks out). A prev-hash or hash mismatch whose stored
string is shorter than 16 bytes stops it with the slice-bounds panic
raised by the error formatting (`entry.PrevHash[:16]` / `entry.Hash[:16]`
in verify.go; the expected-value operands are 64-byte hex digests — the
genesis hash or a hash already checked on an earlier line — and never
panic). `expectedPrev` and `prevSeq` carry the chain state. -/
def verifyFromE (expectedPrev : String) (prevSeq : Nat) :
    List (Option Entry) → Option VerifyStop
  | [] => none
  | none :: _ => some (.invalidJSON 1)
  | some e :: rest =>
    if e.seq ≠ prevSeq + 1 then some (.seqGap 1)
    else if e.prevHash ≠ expectedPrev then
      (if sliceablePrefix16 e.prevHash then some (.prevHashMismatch 1)
       else some (.panicSlice 1))
    else if e.hash ≠ computeHash e then
      (if sliceablePrefix16 e.hash then some (.hashMismatch 1)
       else some (.panicSlice 1))
    else (verifyFromE e.hash e.seq rest).map VerifyStop.bump

/-- The 1-based line at which the walk stops — by an error return or by
the formatting panic (`none` = accepted). -/
def verifyFrom (expectedPrev : String) (prevSeq : Nat)
    (lines : List (Option Entry)) : Option Nat :=
  (verifyFromE expectedPrev prevSeq lines).map VerifyStop.line

/-- `Verify`: walk the parsed lines from the genesis state. An empty log
is valid. -/
def verifyLines (lines : List (Option Entry)) : Option Nat :=
  verifyFrom genesisHash 0 lines

/-- `Verify` from the genesis state, with the stop event. -/
def verifyLinesE (lines : List (Option Entry)) : Option VerifyStop :=
  verifyFromE genesisHash 0 lines

/-- The hash-chain predicate of the claim, from a given cursor and
sequence value: each entry bumps the sequence, links to the previous
hash, and carries the hex SHA-256 of its own serialization with the hash
field emptied. -/
def chainFromB (expectedPrev : String) (prevSeq : Nat) : List Entry → Bool
  | [] => true
  | e :: rest =>
    e.seq = prevSeq + 1 && e.prevHash = expectedPrev
      && e.hash = sha256hex (strBytes (marshalEntry { e with hash := "" }))
      && chainFromB e.hash e.seq rest

/-- The claim-level audit-file invariant: a strictly sequenced hash chain
starting at seq 1 from the genesis hash. -/
def chainOkB (es : List Entry) : Bool := chainFromB genesisHash 0 es

/-! ## Capability tiers (internal/cap) and policy data (internal/policy/policy.go) -/

/-- `cap.Tier`: the four safety tiers. -/
inductive Tier where
  | read
  | build
  | write
  | dangerous
deriving DecidableEq

/-- `policy.Decision`. -/
inductive Decision where
  | allow
  | deny
  | escalate
deriving DecidableEq

/-- `policy.Segment`: capability name, args, and tier. -/
structure Seg where
  capName : String
  args : List String
  tier : Tier
deriving DecidableEq

/-- `policy.Request`. -/
structure Request where
  command : String
  segments : List Seg
  cwd : String
  retry : Bool
  hasRedirectOut : Bool
  justification : String
  safetyArg : String
deriving DecidableEq

/-- `policy.Result`. -/
structure Result where
  decision : Decision
  level : Nat
  reason : String
  ruleID : String
deriving DecidableEq

/-- `ParseDecision` (internal/policy/store.go). -/
def parseDecision (s : String) : Except String Decision :=
  if s = "allow" then .ok .allow
  else if s = "deny" then .ok .deny
  else if s = "escalate" then .ok .escalate
  else .error ("invalid decision " ++ s)

/-! ## path/filepath.Clean (lexical processing, separator `/`) -/

/-- The element-stack step of lexical path cleaning: empty and `.`
elements vanish, `..` pops a poppable element (or vanishes at the root,
or accumulates when relative), anything else pushes. -/
def cleanStack (rooted : Bool) : List String → List String → List String
  | stack, [] => stack.reverse
  | stack, part :: rest =>
    if part = "" ∨ part = "." then cleanStack rooted stack rest
    else if part = ".." then
      match stack with
      | top :: stack1 =>
        if top = ".." then cleanStack rooted (".." :: top :: stack1) rest
        else cleanStack rooted stack1 rest
      | [] =>
        if rooted then cleanStack rooted [] rest
        else cleanStack rooted [".."] rest
    else cleanStack rooted (part :: stack) rest

/-- Split a character list at a separator character (the semantics of
`strings.Split` with a one-character separator). -/
def splitOnCharAux (sep : Char) : List Char → List Char → List (List Char)
  | [], cur => [cur.reverse]
  | c :: rest, cur =>
    if c = sep then cur.reverse :: splitOnCharAux sep rest []
    else splitOnCharAux sep rest (c :: cur)

/-- Split a string at a separator character. -/
def splitOnChar (sep : Char) (s : String) : List String :=
  (splitOnCharAux sep s.data []).map String.mk

/-- `filepath.Clean` for slash-separated paths, via the standard lexical
algorithm (equivalent to the Go buffer walk). -/
def filepathClean (path : String) : String :=
  if path = "" then "."
  else
    let rooted := hasPrefixStr path "/"
    let parts := cleanStack rooted [] (splitOnChar '/' path)
    if parts.isEmpty then (if rooted then "/" else ".")
    else (if rooted then "/" else "") ++ joinSep "/" parts

/-! ## Level 1: deterministic rules (internal/policy/level1.go) -/

/-- `hasAnyFlag`: exact flag match, combined short flags (`-rf` matches
`-r`), short flag with attached value (`-j4` matches `-j`), and long flag
with `=` (`--force=yes` matches `--force`). -/
def flagMatches (arg flag : String) : Bool :=
  arg = flag
    || (match flag.data, arg.data with
        | ['-', fc], '-' :: a1 :: arest =>
          a1 ≠ '-' && fc ≠ '-' && (a1 :: arest).length > 1 && (a1 :: arest).contains fc
        | _, _ => false)
    || (flag.length > 2 && hasPrefixStr flag "--" && hasPrefixStr arg (flag ++ "="))

/-- `hasAnyFlag(args, flags...)`: some arg starting with `-` matches some
flag. -/
def hasAnyFlag (args flags : List String) : Bool :=
  args.any (fun arg =>
    !(arg = "") && hasPrefixStr arg "-" && flags.any (fun flag => flagMatches arg flag))

/-- The deny Result issued by `checkRmCatastrophic` for offending arg `a`. -/
def rmDenyResult (a : String) : Result :=
  { decision := .deny, level := 1,
    reason := "refusing to recursively remove \"" ++ a ++ "\" (permanently blocked)",
    ruleID := "deny-rm-catastrophic" }

/-- The per-arg test of `checkRmCatastrophic`: a non-flag arg that cleans
to `/`, `.` or `..`, or is `~` or starts with `~/`. -/
def rmBadArg (a : String) : Bool :=
  !(a = "") && !(hasPrefixStr a "-")
    && (filepathClean a = "/" || filepathClean a = "." || filepathClean a = ".."
        || a = "~" || hasPrefixStr a "~/")

/-- `checkRmCatastrophic`: deny any `rm` segment carrying `-r`/`-R`
(combined forms included) aimed at a catastrophic path. -/
def checkRmCatastrophic (req : Request) : Option Result :=
  req.segments.findSome? (fun seg =>
    if seg.capName ≠ "rm" then none
    else if !hasAnyFlag seg.args ["-r", "-R"] then none
    else (seg.args.find? rmBadArg).map rmDenyResult)

/-- The deny Result of `checkGitCheckoutAll`. -/
def gitCheckoutDenyResult : Result :=
  { decision := .deny, level := 1,
    reason := "checkout: refusing to discard all changes (config rule). Ask the user for explicit permission, then retry with: doit --retry git checkout .",
    ruleID := "deny-git-checkout-all" }

/-- The arg walk of `checkGitCheckoutAll` over the args after `checkout`:
an arg cleaning to `.` fires, and a literal `--` also inspects the next
arg. -/
def gitCheckoutLoop : List String → Bool
  | [] => false
  | a :: rest =>
    if filepathClean a = "." then true
    else if a = "--" then
      match rest with
      | b :: _ => if filepathClean b = "." then true else gitCheckoutLoop rest
      | [] => gitCheckoutLoop rest
    else gitCheckoutLoop rest

/-- `checkGitCheckoutAll`: deny `git checkout` of everything. -/
def checkGitCheckoutAll (req : Request) : Option Result :=
  req.segments.findSome? (fun seg =>
    match seg.args with
    | "checkout" :: rest =>
      if seg.capName = "git" && gitCheckoutLoop rest then some gitCheckoutDenyResult
      else none
    | _ => none)

/-- The allow Result of `checkSafePipeline`. -/
def safePipelineResult : Result :=
  { decision := .allow, level := 1, reason := "all segments are read-only",
    ruleID := "allow-safe-pipeline" }

/-- `checkSafePipeline`: allow when there is no output redirect, the
segment list is non-empty, and every segment is read tier. -/
def checkSafePipeline (req : Request) : Option Result :=
  if req.hasRedirectOut then none
  else if req.segments.isEmpty then none
  else if req.segments.all (fun seg => seg.tier = .read) then some safePipelineResult
  else none

/-- `policy.Rule`: id, bypassable flag, and check function. -/
structure Rule where
  id : String
  bypassable : Bool
  check : Request → Option Result

/-- `rules.CapRuleConfig`: rejected flags and per-subcommand rejected
flags. Go iterates its maps in unspecified order, so the model takes
ordered association lists. -/
structure CapRuleConfig where
  rejectFlags : List String
  subcommands : List (String × List String)

/-- The check of a capability-level config deny rule. -/
def configFlagCheck (name : String) (flags : List String) (req : Request) : Option Result :=
  req.segments.findSome? (fun seg =>
    if seg.capName ≠ name then none
    else if hasAnyFlag seg.args flags then
      some { decision := .deny, level := 1,
             reason := "rejected flag for " ++ name ++ " (config rule). Ask the user for explicit permission, then retry with: doit --retry " ++ name ++ " ...",
             ruleID := "deny-" ++ name ++ "-flags" }
    else none)

/-- The check of a subcommand-level config deny rule. -/
def configSubFlagCheck (name sub : String) (flags : List String) (req : Request) :
    Option Result :=
  req.segments.findSome? (fun seg =>
    match seg.args with
    | a0 :: rest =>
      if seg.capName ≠ name ∨ a0 ≠ sub then none
      else if hasAnyFlag rest flags then
        some { decision := .deny, level := 1,
               reason := sub ++ ": rejected flag for " ++ name ++ " (config rule). Ask the user for explicit permission, then retry with: doit --retry " ++ name ++ " ...",
               ruleID := "deny-" ++ name ++ "-" ++ sub ++ "-flags" }
      else none
    | [] => none)

/-- `compileConfigRules`: the bypassable deny rules derived from one
capability entry of the config. -/
def compileConfigRules (name : String) (cfg : CapRuleConfig) : List Rule :=
  (if cfg.rejectFlags.isEmpty then []
   else [{ id := "deny-" ++ name ++ "-flags", bypassable := true,
           check := configFlagCheck name cfg.rejectFlags }])
  ++ cfg.subcommands.filterMap (fun sc =>
      if sc.2.isEmpty then none
      else some { id := "deny-" ++ name ++ "-" ++ sc.1 ++ "-flags", bypassable := true,
                  check := configSubFlagCheck name sc.1 sc.2 })

/-- `NewLevel1`: the ordered rule list — the hardcoded rm rule, the
config-derived rules, the git-checkout rule, then the safe-pipeline
auto-allow. -/
def newLevel1 (cfgRules : List (String × CapRuleConfig)) : List Rule :=
  { id := "deny-rm-catastrophic", bypassable := false, check := checkRmCatastrophic }
    :: (cfgRules.flatMap (fun nc => compileConfigRules nc.1 nc.2)
        ++ [{ id := "deny-git-checkout-all", bypassable := true,
              check := checkGitCheckoutAll },
            { id := "allow-safe-pipeline", bypassable := false,
              check := checkSafePipeline }])

/-- The fallthrough Result of `Level1.Evaluate`. -/
def l1NoMatch : Result :=
  { decision := .escalate, level := 1, reason := "no deterministic rule matched",
    ruleID := "" }

/-- The rule walk of `Level1.Evaluate`: bypassable rules are skipped under
retry; the first rule with an opinion wins. -/
def l1Go (req : Request) : List Rule → Result
  | [] => l1NoMatch
  | r :: rs =>
    if r.bypassable && req.retry then l1Go req rs
    else
      match r.check req with
      | some res => res
      | none => l1Go req rs

/-- `Level1.Evaluate` for the engine built by `NewLevel1 cfgRules`. -/
def l1Evaluate (cfgRules : List (String × CapRuleConfig)) (req : Request) : Result :=
  l1Go req (newLevel1 cfgRules)

/-! ## filepath.Match globs (used by Level 2 args_glob criteria) -/

/-- Parse a character class after `[`: optional `^`, then ranges until
`]`. Returns (negated, ranges, rest) or `none` for a bad pattern. -/
def parseClassRanges (fuel : Nat) (cs : List Char) (acc : List (Char × Char)) :
    Option (List (Char × Char) × List Char) :=
  match fuel, cs with
  | 0, _ => none
  | _, [] => none
  | fuel + 1, c :: rest =>
    if c = ']' then (if acc.isEmpty then none else some (acc.reverse, rest))
    else if c = '-' then none
    else
      match (if c = '\\' then rest.head?.map (fun d => (d, rest.drop 1)) else some (c, rest)) with
      | none => none
      | some (lo, rest1) =>
        match rest1 with
        | '-' :: d :: rest2 =>
          if d = ']' ∨ d = '-' then none
          else
            match (if d = '\\' then rest2.head?.map (fun e => (e, rest2.drop 1)) else some (d, rest2)) with
            | none => none
            | some (hi, rest3) => parseClassRanges fuel rest3 ((lo, hi) :: acc)
        | _ => parseClassRanges fuel rest1 ((lo, lo) :: acc)

/-- Glob matching with `filepath.Match` semantics: `*` matches any run of
non-separator characters, `?` one non-separator character, `[...]`
character classes with `^` negation and ranges, `\\` escapes. Bad
patterns and mismatches both yield `false`, as `matchAnyGlob` discards
the error. -/
def globMatch (fuel : Nat) (p s : List Char) : Bool :=
  match fuel, p, s with
  | 0, _, _ => false
  | _, [], s => s.isEmpty
  | fuel + 1, '*' :: p1, s =>
    globMatch fuel p1 s
      || (match s with
          | c :: s1 => c ≠ '/' && globMatch fuel ('*' :: p1) s1
          | [] => false)
  | fuel + 1, '?' :: p1, c :: s1 => c ≠ '/' && globMatch fuel p1 s1
  | _, '?' :: _, [] => false
  | fuel + 1, '\\' :: pc :: p1, c :: s1 => c = pc && globMatch fuel p1 s1
  | _, '\\' :: _, _ => false
  | fuel + 1, '[' :: p1, c :: s1 =>
    (match p1 with
     | '^' :: p2 =>
       match parseClassRanges (p2.length + 1) p2 [] with
       | some (ranges, p3) =>
         !(ranges.any (fun r => r.1 ≤ c && c ≤ r.2)) && globMatch fuel p3 s1
       | none => false
     | _ =>
       match parseClassRanges (p1.length + 1) p1 [] with
       | some (ranges, p3) => ranges.any (fun r => r.1 ≤ c && c ≤ r.2) && globMatch fuel p3 s1
       | none => false)
  | _, '[' :: _, [] => false
  | fuel + 1, pc :: p1, c :: s1 => c = pc && globMatch fuel p1 s1
  | _, _ :: _, [] => false

/-- `filepath.Match(pattern, name)` restricted to its boolean result. -/
def filepathMatch (pattern name : String) : Bool :=
  globMatch (pattern.length + name.length + 1) pattern.data name.data

/-- `matchAnyGlob`: name matches at least one pattern. -/
def matchAnyGlob (s : String) (patterns : List String) : Bool :=
  patterns.any (fun p => filepathMatch p s)

/-! ## Level 2: learned policy store (internal/policy/level2.go, store.go) -/

/-- `policy.MatchCriteria`. -/
structure MatchCriteria where
  cap : String
  subcmd : String
  hasFlags : List String
  noFlags : List String
  argsGlob : List String
deriving DecidableEq

/-- `policy.PolicyEntry` (the fields evaluation reads). -/
structure PolicyEntry where
  id : String
  match_ : MatchCriteria
  decision : String
  reasoning : String
  approved : Bool
deriving DecidableEq

/-- `extractPositionalArgs`: non-flag args after the subcmd, where a
literal `--` ends flag recognition. -/
def extractPositionalArgs (args : List String) (subcmd : String) : List String :=
  let rest :=
    match args with
    | a0 :: tl => if subcmd ≠ "" ∧ a0 = subcmd then tl else args
    | [] => args
  (rest.foldl (fun (st : Bool × List String) arg =>
      if arg = "--" then (true, st.2)
      else if !st.1 && hasPrefixStr arg "-" then st
      else (st.1, arg :: st.2)) (false, [])).2.reverse

/-- `matchesCriteria`: all specified criteria must hold — cap equality,
subcmd as first arg, at least one `has_flags`, none of `no_flags`, and
every positional arg matching some glob. -/
def matchesCriteria (seg : Seg) (m : MatchCriteria) : Bool :=
  if seg.capName ≠ m.cap then false
  else if m.subcmd ≠ "" ∧ (seg.args.head? ≠ some m.subcmd) then false
  else
    let flagArgs := if m.subcmd ≠ "" ∧ !seg.args.isEmpty then seg.args.tail else seg.args
    if !m.hasFlags.isEmpty && !hasAnyFlag flagArgs m.hasFlags then false
    else if !m.noFlags.isEmpty && hasAnyFlag flagArgs m.noFlags then false
    else if !m.argsGlob.isEmpty then
      let positional := extractPositionalArgs seg.args m.subcmd
      !positional.isEmpty && positional.all (fun a => matchAnyGlob a m.argsGlob)
    else true

/-- `Level2.matchSegment`: first approved entry with matching criteria and
a parseable decision wins; an unmatched read-tier segment is implicitly
allowed; otherwise escalate. -/
def matchSegment (entries : List PolicyEntry) (seg : Seg) : Result :=
  match entries with
  | [] =>
    if seg.tier = .read then
      { decision := .allow, level := 2,
        reason := seg.capName ++ " is read-only (implicit allow)", ruleID := "" }
    else
      { decision := .escalate, level := 2,
        reason := "no learned policy for " ++ seg.capName, ruleID := "" }
  | e :: rest =>
    if e.approved && matchesCriteria seg e.match_ then
      match parseDecision e.decision with
      | .ok dec =>
        { decision := dec, level := 2,
          reason := "matched learned policy \"" ++ e.id ++ "\": " ++ e.reasoning,
          ruleID := e.id }
      | .error _ => matchSegment rest seg
    else matchSegment rest seg

/-- The per-segment walk of `Level2.Evaluate`: results are collected in
order, short-circuiting on the first Deny. -/
def l2Collect (entries : List PolicyEntry) : List Seg → Except Result (List Result)
  | [] => .ok []
  | seg :: rest =>
    let r := matchSegment entries seg
    if r.decision = .deny then .error r
    else (l2Collect entries rest).map (r :: ·)

/-- `Level2.Evaluate`: retry bypasses Level 2; a lone segment returns its
result directly; otherwise all segments must be allowed. -/
def l2Evaluate (entries : List PolicyEntry) (req : Request) : Result :=
  if req.retry then
    { decision := .escalate, level := 2, reason := "--retry bypasses Level 2", ruleID := "" }
  else
    match req.segments with
    | [] => { decision := .escalate, level := 2, reason := "no segments to evaluate", ruleID := "" }
    | _ =>
      match l2Collect entries req.segments with
      | .error r => r
      | .ok [r] => r
      | .ok rs =>
        if rs.all (fun r => r.decision = .allow) then
          { decision := .allow, level := 2,
            reason := "all segments allowed by learned policy", ruleID := "" }
        else
          { decision := .escalate, level := 2,
            reason := "no learned policy matched all segments", ruleID := "" }

/-! ## JSON values (encoding/json, the unmarshal direction)

Enough of `json.Unmarshal` to decode the Level 3 reply struct
`(decision, reasoning : string)`: a validating value parser (array and
non-object payloads are parsed, validated, and discarded) and field
decoding with case-insensitive key matching. `\uXXXX` escapes decode to
the code point directly (surrogate pairing is out of the model). -/

inductive Jval where
  | str (s : String)
  | num
  | boolv (b : Bool)
  | nul
  | arr
  | obj (fields : List (String × Jval))

/-- JSON whitespace. -/
def jsonWs (c : Char) : Bool := c = ' ' || c = '\t' || c = '\n' || c = '\r'

/-- Skip JSON whitespace. -/
def skipWs (cs : List Char) : List Char := cs.dropWhile jsonWs

/-- Hex digit value. -/
def hexVal (c : Char) : Option Nat :=
  if '0' ≤ c ∧ c ≤ '9' then some (c.toNat - 48)
  else if 'a' ≤ c ∧ c ≤ 'f' then some (c.toNat - 87)
  else if 'A' ≤ c ∧ c ≤ 'F' then some (c.toNat - 55)
  else none

/-- The body of a JSON string after the opening quote. -/
def parseStrBody (fuel : Nat) (cs : List Char) (acc : List Char) :
    Option (String × List Char) :=
  match fuel, cs with
  | 0, _ => none
  | _, [] => none
  | fuel + 1, c :: rest =>
    if c = '"' then some (String.mk acc.reverse, rest)
    else if c = '\\' then
      match rest with
      | e :: rest1 =>
        if e = '"' ∨ e = '\\' ∨ e = '/' then parseStrBody fuel rest1 (e :: acc)
        else if e = 'b' then parseStrBody fuel rest1 ('\x08' :: acc)
        else if e = 'f' then parseStrBody fuel rest1 ('\x0c' :: acc)
        else if e = 'n' then parseStrBody fuel rest1 ('\n' :: acc)
        else if e = 'r' then parseStrBody fuel rest1 ('\r' :: acc)
        else if e = 't' then parseStrBody fuel rest1 ('\t' :: acc)
        else if e = 'u' then
          match rest1 with
          | h1 :: h2 :: h3 :: h4 :: rest2 =>
            match hexVal h1, hexVal h2, hexVal h3, hexVal h4 with
            | some a, some b, some c2, some d =>
              let n := ((a * 16 + b) * 16 + c2) * 16 + d
              parseStrBody fuel rest2 (Char.ofNat n :: acc)
            | _, _, _, _ => none
          | _ => none
        else none
      | [] => none
    else if c.toNat < 0x20 then none
    else parseStrBody fuel rest (c :: acc)

/-- Decimal digits, at least one. -/
def parseDigits : List Char → Option (List Char)
  | c :: rest =>
    if '0' ≤ c ∧ c ≤ '9' then
      some ((c :: rest).dropWhile (fun d => '0' ≤ d ∧ d ≤ '9'))
    else none
  | [] => none

/-- An exponent tail: optional sign, then digits. -/
def parseExp (cs : List Char) : Option (List Char) :=
  parseDigits (match cs with | '+' :: r => r | '-' :: r => r | r => r)

/-- A JSON number (validated and discarded): `-?(0|[1-9][0-9]*)`
then optional fraction and exponent. -/
def parseNum (cs : List Char) : Option (List Char) :=
  let afterMinus := match cs with | '-' :: rest => rest | _ => cs
  let intPart : Option (List Char) :=
    match afterMinus with
    | '0' :: rest => some rest
    | c :: rest =>
      if '1' ≤ c ∧ c ≤ '9' then some (rest.dropWhile (fun d => '0' ≤ d ∧ d ≤ '9'))
      else none
    | [] => none
  match intPart with
  | none => none
  | some rest1 =>
    let afterFrac : Option (List Char) :=
      match rest1 with
      | '.' :: rest2 => parseDigits rest2
      | _ => some rest1
    match afterFrac with
    | none => none
    | some rest3 =>
      match rest3 with
      | 'e' :: rest4 => parseExp rest4
      | 'E' :: rest4 => parseExp rest4
      | _ => some rest3

mutual

/-- One JSON value (fuel-structured recursive descent; callers supply
fuel exceeding the input length, so exhaustion never fires on them). -/
def parseVal (fuel : Nat) (cs : List Char) : Option (Jval × List Char) :=
  match fuel with
  | 0 => none
  | fuel + 1 =>
    match skipWs cs with
    | [] => none
    | c :: rest =>
      if c = '"' then (parseStrBody (rest.length + 1) rest []).map (fun p => (.str p.1, p.2))
      else if c = 't' then
        if rest.take 3 = ['r', 'u', 'e'] then some (.boolv true, rest.drop 3) else none
      else if c = 'f' then
        if rest.take 4 = ['a', 'l', 's', 'e'] then some (.boolv false, rest.drop 4) else none
      else if c = 'n' then
        if rest.take 3 = ['u', 'l', 'l'] then some (.nul, rest.drop 3) else none
      else if c = '[' then
        match skipWs rest with
        | ']' :: rest1 => some (.arr, rest1)
        | _ => parseArrTail fuel rest
      else if c = '\x7b' then
        match skipWs rest with
        | '\x7d' :: rest1 => some (.obj [], rest1)
        | _ => parseObjTail fuel rest []
      else (parseNum (c :: rest)).map (fun r => (.num, r))

/-- Array elements: value then `,` or `]`. -/
def parseArrTail (fuel : Nat) (cs : List Char) : Option (Jval × List Char) :=
  match fuel with
  | 0 => none
  | fuel + 1 =>
    match parseVal fuel cs with
    | none => none
    | some (_, rest) =>
      match skipWs rest with
      | ',' :: rest1 => parseArrTail fuel rest1
      | ']' :: rest1 => some (.arr, rest1)
      | _ => none

/-- Object fields: `"key": value` then `,` or the closing brace. -/
def parseObjTail (fuel : Nat) (cs : List Char) (acc : List (String × Jval)) :
    Option (Jval × List Char) :=
  match fuel with
  | 0 => none
  | fuel + 1 =>
    match skipWs cs with
    | '"' :: rest =>
      match parseStrBody (rest.length + 1) rest [] with
      | none => none
      | some (key, rest1) =>
        match skipWs rest1 with
        | ':' :: rest2 =>
          match parseVal fuel rest2 with
          | none => none
          | some (v, rest3) =>
            match skipWs rest3 with
            | ',' :: rest4 => parseObjTail fuel rest4 ((key, v) :: acc)
            | '\x7d' :: rest4 => some (.obj ((key, v) :: acc).reverse, rest4)
            | _ => none
        | _ => none
    | _ => none

end

/-! ## Level 3: LLM gatekeeper (internal/policy/level3.go) -/

/-- ASCII lowering (the case fold of `encoding/json` key matching,
restricted to the ASCII keys in play). -/
def asciiLower (s : String) : String :=
  String.mk (s.data.map (fun c =>
    if 'A' ≤ c ∧ c ≤ 'Z' then "abcdefghijklmnopqrstuvwxyz".data.getD (c.toNat - 65) c
    else c))

/-- Decode the reply struct: the input must be one JSON object (with
nothing but whitespace around it); the `decision` and `reasoning` fields
must be strings when present, matched case-insensitively, later
duplicates winning; missing fields stay empty. -/
def unmarshalL3Payload (s : String) : Except String (String × String) :=
  match parseVal (s.length + 1) s.data with
  | none => .error "invalid JSON: syntax error"
  | some (v, rest) =>
    if !(skipWs rest).isEmpty then .error "invalid JSON: trailing data"
    else
      match v with
      | .obj fields =>
        fields.foldlM (fun (acc : String × String) kv =>
          if asciiLower kv.1 = "decision" then
            match kv.2 with
            | .str d => .ok (d, acc.2)
            | _ => .error "invalid JSON: decision is not a string"
          else if asciiLower kv.1 = "reasoning" then
            match kv.2 with
            | .str r => .ok (acc.1, r)
            | _ => .error "invalid JSON: reasoning is not a string"
          else .ok acc) ("", "")
      | _ => .error "invalid JSON: not an object"

/-- Whitespace trimming on both ends (`strings.TrimSpace`; the replies in
play use ASCII whitespace). -/
def trimSpace (cs : List Char) : List Char :=
  ((cs.dropWhile Char.isWhitespace).reverse.dropWhile Char.isWhitespace).reverse

/-- The three-character code fence. -/
def fence : List Char := "```".data

/-- Byte offset of the last occurrence of the fence
(`strings.LastIndex`). -/
def lastFenceIdx (cs : List Char) : Option Nat :=
  (List.range (cs.length + 1)).foldl
    (fun best i => if (cs.drop i).take 3 = fence then some i else best) none

/-- The fence-stripping phase of `parseL3Decision`: trim, drop a leading
fence line if present (no newline after the opening fence is an error),
cut at the last closing fence, trim again. -/
def stripFences (raw : String) : Except String String :=
  let s := trimSpace raw.data
  if s.take 3 = fence then
    match s.findIdx? (fun c => c = '\n') with
    | none => .error "malformed code fence"
    | some idx =>
      let s1 := s.drop (idx + 1)
      let s2 := match lastFenceIdx s1 with
                | some i => s1.take i
                | none => s1
      .ok (String.mk (trimSpace s2))
  else .ok (String.mk s)

/-- `parseL3Decision`: strip fences, unmarshal the JSON payload, and
parse the decision label. -/
def parseL3Decision (raw : String) : Except String (Decision × String) :=
  match stripFences raw with
  | .error e => .error e
  | .ok s =>
    match unmarshalL3Payload s with
    | .error e => .error e
    | .ok (d, reasoning) =>
      match parseDecision d with
      | .error e => .error e
      | .ok dec => .ok (dec, reasoning)

/-- `Level3.Evaluate`, with the Prompter call reified as its outcome
(`Except` transport error or raw reply): retry allows immediately without
consulting the reply; transport errors and unparseable replies degrade to
Escalate with a diagnostic reason. -/
def l3Evaluate (req : Request) (resp : Except String String) : Result :=
  if req.retry then
    { decision := .allow, level := 3, reason := "--retry bypasses Level 3", ruleID := "" }
  else
    match resp with
    | .error err =>
      { decision := .escalate, level := 3, reason := "LLM error: " ++ err, ruleID := "" }
    | .ok raw =>
      match parseL3Decision raw with
      | .error e =>
        { decision := .escalate, level := 3,
          reason := "unparseable LLM response: " ++ e, ruleID := "" }
      | .ok (dec, reasoning) =>
        { decision := dec, level := 3, reason := reasoning, ruleID := "llm-gatekeeper" }

/-! ## Approval tokens (internal/policy/tokens.go) -/

/-- `policy.TokenEntry`. Times are abstract instants (`Nat`). -/
structure TokenEntry where
  command : String
  args : List String
  createdAt : Nat
  expiresAt : Nat
deriving DecidableEq

/-- The token map, as an association list keyed by the hex token. -/
abbrev TokenStore := List (String × TokenEntry)

/-- Map lookup. -/
def lookupTok (s : TokenStore) (t : String) : Option TokenEntry :=
  ((s : List (String × TokenEntry)).find? (fun kv => kv.1 = t)).map (·.2)

/-- Map deletion. -/
def eraseTok (s : TokenStore) (t : String) : TokenStore :=
  (s : List (String × TokenEntry)).filter (fun kv => kv.1 ≠ t)

/-- `TokenStore.Issue` with the generated random token and the clock
passed in: store the args under the token with expiry `now + ttl`. -/
def issueTok (s : TokenStore) (t : String) (command : String) (args : List String)
    (now ttl : Nat) : TokenStore :=
  (t, { command := command, args := args, createdAt := now, expiresAt := now + ttl })
    :: eraseTok s t

/-- `TokenStore.Validate`: look up, delete unconditionally, then fail on
expiry (strictly past `expiresAt`) or argv mismatch. -/
def validateTok (s : TokenStore) (t : String) (args : List String) (now : Nat) :
    TokenStore × Except String TokenEntry :=
  match lookupTok s t with
  | none => (s, .error "unknown or expired approval token")
  | some entry =>
    let s1 := eraseTok s t
    if now > entry.expiresAt then (s1, .error "approval token expired")
    else if args ≠ entry.args then (s1, .error "approval token args mismatch")
    else (s1, .ok entry)

/-- `TokenStore.Purge`: drop entries strictly past expiry. -/
def purgeTok (s : TokenStore) (now : Nat) : TokenStore :=
  (s : List (String × TokenEntry)).filter (fun kv => ¬ now > kv.2.expiresAt)

/-- One store operation of a concurrent history (linearized: all three
operations run under the single store mutex). -/
inductive TokOp where
  | issue (t : String) (command : String) (args : List String) (now ttl : Nat)
  | validate (t : String) (args : List String) (now : Nat)
  | purge (now : Nat)

/-- Apply one operation to the store. -/
def tokStep (s : TokenStore) : TokOp → TokenStore
  | .issue t c a now ttl => issueTok s t c a now ttl
  | .validate t a now => (validateTok s t a now).1
  | .purge now => purgeTok s now

/-- How many operations of the history issue token `t`. -/
def issueCount (t : String) : List TokOp → Nat
  | [] => 0
  | .issue t1 _ _ _ _ :: rest => (if t1 = t then 1 else 0) + issueCount t rest
  | _ :: rest => issueCount t rest

/-- How many validations of token `t` succeed along the history. -/
def successCount (s : TokenStore) (t : String) : List TokOp → Nat
  | [] => 0
  | op :: rest =>
    (match op with
     | .validate t1 a now =>
       if t1 = t ∧ ((validateTok s t1 a now).2.toOption.isSome) then 1 else 0
     | _ => 0) + successCount (tokStep s op) t rest

/-! ## Pipeline executor (internal/pipeline/executor.go) -/

/-- The compound operator tokens (internal/pipeline/types.go). -/
def opAndThen : String := "＆＆"

/-- Or-else operator token. -/
def opOrElse : String := "‖"

/-- Sequential operator token. -/
def opSequential : String := "；"

/-- A `CommandStep` over an abstract pipeline type: the pipeline and the
operator that follows it. -/
structure Step (P : Type) where
  pipeline : P
  op : String

/-- The loop body of `ExecuteCommand`: `prevOp` is the operator of the
preceding step (`none` on the first step), `lastErr` the running error.
`exec` reifies `Execute` on one pipeline. -/
def execGo {P E : Type} (exec : P → Option E) (lastErr : Option E)
    (prevOp : Option String) : List (Step P) → Option E
  | [] => lastErr
  | s :: rest =>
    let skip :=
      match prevOp with
      | none => false
      | some p =>
        if p = opAndThen then lastErr.isSome
        else if p = opOrElse then lastErr.isNone
        else false
    if skip then execGo exec lastErr (some s.op) rest
    else execGo exec (exec s.pipeline) (some s.op) rest

/-- `ExecuteCommand`: run the steps under the compound operator logic and
return the error of the last executed pipeline. -/
def executeCommand {P E : Type} (exec : P → Option E) (steps : List (Step P)) : Option E :=
  execGo exec none none steps

/-- The skip rule as the claim words it: a step after the first is
skipped when the previous connector is AND-then and the last error is
non-nil, or OR-else and the last error is nil; SEQUENTIAL (or any other
connector) always runs. -/
def claimSkip {E : Type} (prevOp : Option String) (lastErr : Option E) : Bool :=
  match prevOp with
  | none => false
  | some p =>
    if p = opAndThen then lastErr.isSome
    else if p = opOrElse then lastErr.isNone
    else false

/-- Each step paired with the connector of its predecessor (`none` for
the first step). -/
def stepPairs {P : Type} (steps : List (Step P)) : List (Option String × Step P) :=
  (none :: steps.map (fun s => some s.op)).zip steps

/-- The steps the claim says are executed, in order, tracking the running
last error; a skipped step leaves the error unchanged. -/
def executedSteps {P E : Type} (exec : P → Option E) (lastErr : Option E) :
    List (Option String × Step P) → List (Step P)
  | [] => []
  | (p, s) :: rest =>
    if claimSkip p lastErr then executedSteps exec lastErr rest
    else s :: executedSteps exec (exec s.pipeline) rest

/-- The error of the last executed step (`none` when nothing ran). -/
def lastExecutedErr {P E : Type} (exec : P → Option E) (l : List (Step P)) : Option E :=
  match l.getLast? with
  | none => none
  | some s => exec s.pipeline

/-! ## Daemon policy dispatch (internal/daemon/server.go and spec 4.J)

The policy chain L1 → L2 → L3 with short-circuit, then the per-connection
dispatch. -/

/-- The request-level policy chain: run Level 1; on Escalate consult
Level 2 when enabled; on Escalate again consult Level 3 when enabled
(its Prompter outcome reified). -/
def finalPolicy (cfgRules : List (String × CapRuleConfig))
    (l2entries : Option (List PolicyEntry)) (l3resp : Option (Except String String))
    (req : Request) : Result :=
  let r1 := l1Evaluate cfgRules req
  if r1.decision ≠ .escalate then r1
  else
    let r2 := match l2entries with
              | some entries => l2Evaluate entries req
              | none => r1
    if r2.decision ≠ .escalate then r2
    else
      match l3resp with
      | some resp => l3Evaluate req resp
      | none => r2

/-- What the daemon sends back and whether it ran the command. -/
structure DaemonReply where
  ran : Bool
  exitCode : Int
  errText : String
  policyDeny : String
  policyEscalate : String
deriving DecidableEq

/-- Modelled from the spec: the per-connection policy dispatch of
`Server.handleConnection` in its token-issuing form (spec 4.J step 3 and
4.H; the revision of server.go, ipc.ExitResult and ipc.Request carrying
`policy_escalate`/`approved` is referenced by cmd/doit/main.go but is not
under src/). On Deny: emit the rule id, do not run. On Escalate at the
final enabled level: issue a fresh approval token bound to the request
argv and return it in the ExitResult, without running. Otherwise run the
command and report its exit code. -/
def handleRequest (cfgRules : List (String × CapRuleConfig))
    (l2entries : Option (List PolicyEntry)) (l3resp : Option (Except String String))
    (req : Request) (argv : List String) (store : TokenStore) (freshTok : String)
    (now ttl : Nat) (execCode : Int) : DaemonReply × TokenStore :=
  let r := finalPolicy cfgRules l2entries l3resp req
  match r.decision with
  | .deny =>
    ({ ran := false, exitCode := 1, errText := "doit: policy: " ++ r.reason,
       policyDeny := r.ruleID, policyEscalate := "" }, store)
  | .escalate =>
    ({ ran := false, exitCode := 1, errText := "", policyDeny := "",
       policyEscalate := freshTok },
     issueTok store freshTok req.command argv now ttl)
  | .allow =>
    ({ ran := true, exitCode := execCode, errText := "", policyDeny := "",
       policyEscalate := "" }, store)

/-! ## Helper lemmas: the audit chain -/

/-- A run of successful `Log` calls extends any state into a chain rooted
at that state. -/
theorem chainFromB_runLog (st : LoggerState) (ps : List LogPayload) :
    chainFromB st.prevHash st.seq (runLog st ps).2 = true := by
  induction ps generalizing st with
  | nil => simp [runLog, chainFromB]
  | cons p ps ih =>
    simp only [runLog, logStep, chainFromB, computeHash]
    refine (Bool.and_eq_true _ _).mpr ⟨(Bool.and_eq_true _ _).mpr
      ⟨(Bool.and_eq_true _ _).mpr ⟨?_, ?_⟩, ?_⟩, ?_⟩
    · simp
    · simp
    · simp
    · exact ih { seq := st.seq + 1, prevHash := _ }

/-- C1: starting from an empty or missing audit file, every sequence of
successful `Logger.Log` appends yields a strictly sequenced hash chain:
seq starts at 1 and increments, the first prev_hash is the hex SHA-256 of
the ASCII string doit-genesis, each later prev_hash is the predecessor
hash, and each entry hash is the hex SHA-256 of the canonical JSON of the
entry with its hash field emptied. -/
theorem audit_chain_invariant (ps : List LogPayload) :
    chainOkB (runLog (newLogger []) ps).2 = true :=
  chainFromB_runLog { seq := 0, prevHash := genesisHash } ps

/-! ## Helper lemmas: the verifier -/

/-- `verifyFrom` on the empty tail. -/
theorem verifyFrom_nil (q : String) (n : Nat) : verifyFrom q n [] = none := rfl

/-- `verifyFrom` on an unparsable head line. -/
theorem verifyFrom_cons_none (q : String) (n : Nat) (rest : List (Option Entry)) :
    verifyFrom q n (none :: rest) = some 1 := rfl

/-- `verifyFrom` on a parsed head line: the stop index does not depend on
which of the two mismatch outcomes — error return or formatting panic —
ends the walk. -/
theorem verifyFrom_cons_some (q : String) (n : Nat) (e : Entry)
    (rest : List (Option Entry)) :
    verifyFrom q n (some e :: rest)
      = if e.seq ≠ n + 1 then some 1
        else if e.prevHash ≠ q then some 1
        else if e.hash ≠ computeHash e then some 1
        else (verifyFrom e.hash e.seq rest).map (· + 1) := by
  have hE : verifyFromE q n (some e :: rest)
      = if e.seq ≠ n + 1 then some (.seqGap 1)
        else if e.prevHash ≠ q then
          (if sliceablePrefix16 e.prevHash then some (.prevHashMismatch 1)
           else some (.panicSlice 1))
        else if e.hash ≠ computeHash e then
          (if sliceablePrefix16 e.hash then some (.hashMismatch 1)
           else some (.panicSlice 1))
        else (verifyFromE e.hash e.seq rest).map VerifyStop.bump := rfl
  show (verifyFromE q n (some e :: rest)).map VerifyStop.line = _
  rw [hE]
  by_cases h1 : e.seq ≠ n + 1
  · rw [if_pos h1, if_pos h1]
    rfl
  · rw [if_neg h1, if_neg h1]
    by_cases h2 : e.prevHash ≠ q
    · rw [if_pos h2, if_pos h2]
      cases sliceablePrefix16 e.prevHash <;> simp [VerifyStop.line]
    · rw [if_neg h2, if_neg h2]
      by_cases h3 : e.hash ≠ computeHash e
      · rw [if_pos h3, if_pos h3]
        cases sliceablePrefix16 e.hash <;> simp [VerifyStop.line]
      · rw [if_neg h3, if_neg h3]
        show ((verifyFromE e.hash e.seq rest).map VerifyStop.bump).map VerifyStop.line
          = ((verifyFromE e.hash e.seq rest).map VerifyStop.line).map (· + 1)
        cases hv : verifyFromE e.hash e.seq rest with
        | none => rfl
        | some v => cases v <;> rfl

/-- `bumpN` shifts the stop line. -/
theorem VerifyStop.bumpN_line (i : Nat) (v : VerifyStop) :
    (VerifyStop.bumpN i v).line = VerifyStop.line v + i := by
  cases v <;> rfl

/-- `bump` after `bumpN` is `bumpN` of the successor. -/
theorem VerifyStop.bump_bumpN (j : Nat) (v : VerifyStop) :
    VerifyStop.bump (VerifyStop.bumpN j v) = VerifyStop.bumpN (j + 1) v := by
  cases v <;> rfl

/-- An accepted file has every line parsed. -/
theorem verifyFrom_none_all_parsed (q : String) (n : Nat) :
    ∀ lines : List (Option Entry), verifyFrom q n lines = none → none ∉ lines := by
  intro lines
  induction lines generalizing q n with
  | nil => simp
  | cons l rest ih =>
    intro h
    match l with
    | none => simp [verifyFrom_cons_none] at h
    | some e =>
      rw [verifyFrom_cons_some] at h
      split at h
      · exact absurd h (by simp)
      · split at h
        · exact absurd h (by simp)
        · split at h
          · exact absurd h (by simp)
          · have := ih e.hash e.seq (by
              cases hv : verifyFrom e.hash e.seq rest with
              | none => rfl
              | some k => rw [hv] at h; simp [Option.map] at h)
            simp [this]

/-- Acceptance of a fully parsed file is exactly the chain predicate. -/
theorem verifyFrom_map_some_iff (es : List Entry) : ∀ (q : String) (n : Nat),
    verifyFrom q n (es.map some) = none ↔ chainFromB q n es = true := by
  induction es with
  | nil => simp [verifyFrom_nil, chainFromB]
  | cons e rest ih =>
    intro q n
    simp only [List.map]
    rw [verifyFrom_cons_some]
    simp only [chainFromB, computeHash]
    by_cases h1 : e.seq = n + 1
    · by_cases h2 : e.prevHash = q
      · by_cases h3 : e.hash = sha256hex (strBytes (marshalEntry { e with hash := "" }))
        · rw [if_neg (fun hc => hc h1), if_neg (fun hc => hc h2), if_neg (fun hc => hc h3)]
          simp [h1, h2, h3]
          exact ih _ _
        · rw [if_neg (fun hc => hc h1), if_neg (fun hc => hc h2), if_pos h3]
          simp [h3]
      · rw [if_neg (fun hc => hc h1), if_pos h2]
        simp [h2]
    · rw [if_pos h1]
      simp [h1]

/-- A reported line index is at least 1. -/
theorem verifyFrom_pos (q : String) (n : Nat) (lines : List (Option Entry)) (k : Nat)
    (h : verifyFrom q n lines = some k) : 1 ≤ k := by
  match lines with
  | [] => simp [verifyFrom_nil] at h
  | none :: rest => simp [verifyFrom_cons_none] at h; omega
  | some e :: rest =>
    rw [verifyFrom_cons_some] at h
    split at h
    · simp at h; omega
    · split at h
      · simp at h; omega
      · split at h
        · simp at h; omega
        · cases hv : verifyFrom e.hash e.seq rest with
          | none => rw [hv] at h; simp at h
          | some k0 => rw [hv] at h; simp at h; omega

/-- The verifier reads top to bottom and reports the first mismatch: when
line `k` is reported, the prefix before it passes and the prefix through
it already fails at `k`. -/
theorem verifyFrom_first_mismatch (lines : List (Option Entry)) :
    ∀ (q : String) (n k : Nat), verifyFrom q n lines = some k →
      verifyFrom q n (lines.take (k - 1)) = none ∧
        verifyFrom q n (lines.take k) = some k := by
  induction lines with
  | nil => intro q n k h; simp [verifyFrom_nil] at h
  | cons l rest ih =>
    intro q n k h
    match l with
    | none =>
      rw [verifyFrom_cons_none] at h
      have hk : k = 1 := by simpa using h.symm
      subst hk
      exact ⟨by simp [verifyFrom_nil], by simp [verifyFrom_cons_none]⟩
    | some e =>
      rw [verifyFrom_cons_some] at h
      by_cases h1 : e.seq ≠ n + 1
      · rw [if_pos h1] at h
        have hk : k = 1 := by simpa using h.symm
        subst hk
        exact ⟨by simp [verifyFrom_nil], by simp [verifyFrom_cons_some, h1]⟩
      · rw [if_neg h1] at h
        by_cases h2 : e.prevHash ≠ q
        · rw [if_pos h2] at h
          have hk : k = 1 := by simpa using h.symm
          subst hk
          exact ⟨by simp [verifyFrom_nil], by simp [verifyFrom_cons_some, h1, h2]⟩
        · rw [if_neg h2] at h
          by_cases h3 : e.hash ≠ computeHash e
          · rw [if_pos h3] at h
            have hk : k = 1 := by simpa using h.symm
            subst hk
            exact ⟨by simp [verifyFrom_nil], by simp [verifyFrom_cons_some, h1, h2, h3]⟩
          · rw [if_neg h3] at h
            cases hv : verifyFrom e.hash e.seq rest with
            | none => rw [hv] at h; simp at h
            | some k0 =>
              rw [hv] at h
              simp only [Option.map_some'] at h
              have hk : k = k0 + 1 := by simpa using h.symm
              subst hk
              obtain ⟨ha, hb⟩ := ih e.hash e.seq k0 hv
              have hpos := verifyFrom_pos _ _ _ _ hv
              obtain ⟨m, rfl⟩ : ∃ m, k0 = m + 1 := ⟨k0 - 1, by omega⟩
              constructor
              · simpa [verifyFrom_cons_some, h1, h2, h3]
                  using congrArg (Option.map (· + 1)) ha
              · simp only [Nat.add_sub_cancel] at ha
                simp [verifyFrom_cons_some, h1, h2, h3, hv, hb]

/-- A modification of one line that the chain equations expose: the line
no longer parses, or its seq disagrees with the original, or (seq kept)
its prev_hash disagrees, or (both kept) its stored hash disagrees with
its own recomputed hash — the latter covers every change to a payload
field or to the hash field alone, short of a SHA-256 collision. -/
def tamperedAt (ei : Entry) (x : Option Entry) : Prop :=
  match x with
  | none => True
  | some e1 =>
    e1.seq ≠ ei.seq
      ∨ (e1.seq = ei.seq ∧ e1.prevHash ≠ ei.prevHash)
      ∨ (e1.seq = ei.seq ∧ e1.prevHash = ei.prevHash ∧ e1.hash ≠ computeHash e1)

instance (ei : Entry) (x : Option Entry) : Decidable (tamperedAt ei x) := by
  unfold tamperedAt
  match x with
  | none => exact inferInstance
  | some e1 => exact inferInstance

/-- The stop `Verify` produces at a tampered line, given the original
entry there: an unparsable line is an invalid-JSON error; a changed seq a
sequence-gap error; a changed prev_hash (seq kept) a prev-hash mismatch —
reported when the stored string keeps at least 16 bytes, a slice-bounds
panic otherwise; with seq and prev_hash kept, the stored hash disagrees
with the recomputed hash — again reported or crashing by the length of
the stored hash string. The recorded line is 1, to be shifted to the
position of the modified line. -/
def tamperStop (ei : Entry) : Option Entry → VerifyStop
  | none => .invalidJSON 1
  | some e1 =>
    if e1.seq ≠ ei.seq then .seqGap 1
    else if e1.prevHash ≠ ei.prevHash then
      (if sliceablePrefix16 e1.prevHash then .prevHashMismatch 1
       else .panicSlice 1)
    else if sliceablePrefix16 e1.hash then .hashMismatch 1
    else .panicSlice 1

/-- `tamperStop` records line 1. -/
theorem tamperStop_line (ei : Entry) (x : Option Entry) :
    (tamperStop ei x).line = 1 := by
  match x with
  | none => rfl
  | some e1 =>
    show (if e1.seq ≠ ei.seq then VerifyStop.seqGap 1
      else if e1.prevHash ≠ ei.prevHash then
        (if sliceablePrefix16 e1.prevHash then VerifyStop.prevHashMismatch 1
         else VerifyStop.panicSlice 1)
      else if sliceablePrefix16 e1.hash then VerifyStop.hashMismatch 1
      else VerifyStop.panicSlice 1).line = 1
    split
    · rfl
    · split
      · cases sliceablePrefix16 e1.prevHash <;> simp [VerifyStop.line]
      · cases sliceablePrefix16 e1.hash <;> simp [VerifyStop.line]

/-- Replacing line `i` of an accepted file with a `tamperedAt` line makes
the walk stop exactly at line `i + 1` (1-based), with the stop event
given by `tamperStop`: a reported error naming that line, except that a
prev-hash or hash mismatch whose stored string has fewer than 16 bytes
crashes the error formatting there instead. -/
theorem verifyFromE_tamper (es : List Entry) :
    ∀ (q : String) (n i : Nat) (x : Option Entry)
      (hacc : verifyFromE q n (es.map some) = none) (hi : i < es.length),
      tamperedAt (es.get ⟨i, hi⟩) x →
        verifyFromE q n ((es.map some).set i x)
          = some (VerifyStop.bumpN i (tamperStop (es.get ⟨i, hi⟩) x)) := by
  induction es with
  | nil => intro q n i x hacc hi; simp at hi
  | cons e rest ih =>
    intro q n i x hacc hi hx
    have hseq : e.seq = n + 1 := by
      by_contra hc
      simp [verifyFromE, hc] at hacc
    have hprev : e.prevHash = q := by
      by_contra hc
      simp only [List.map, verifyFromE] at hacc
      rw [if_neg (fun h => h hseq), if_pos hc] at hacc
      split at hacc <;> simp at hacc
    have hhash : e.hash = computeHash e := by
      by_contra hc
      simp only [List.map, verifyFromE] at hacc
      rw [if_neg (fun h => h hseq), if_neg (fun h => h hprev), if_pos hc] at hacc
      split at hacc <;> simp at hacc
    have hrest : verifyFromE e.hash e.seq (rest.map some) = none := by
      have h := hacc
      simp only [List.map, verifyFromE] at h
      rw [if_neg (fun hc => hc hseq), if_neg (fun hc => hc hprev),
        if_neg (fun hc => hc hhash)] at h
      cases hv : verifyFromE e.hash e.seq (rest.map some) with
      | none => rfl
      | some v => rw [hv] at h; simp at h
    match i with
    | 0 =>
      simp only [List.map, List.set]
      have hget : (e :: rest).get ⟨0, hi⟩ = e := rfl
      rw [hget] at hx ⊢
      match x with
      | none => rfl
      | some e1 =>
        rcases hx with hbad | ⟨hs, hbad⟩ | ⟨hs, hp, hbad⟩
        · have hb2 : e1.seq ≠ n + 1 := by rw [← hseq]; exact hbad
          have hts : tamperStop e (some e1) = VerifyStop.seqGap 1 := by
            show (if e1.seq ≠ e.seq then VerifyStop.seqGap 1
              else if e1.prevHash ≠ e.prevHash then
                (if sliceablePrefix16 e1.prevHash then VerifyStop.prevHashMismatch 1
                 else VerifyStop.panicSlice 1)
              else if sliceablePrefix16 e1.hash then VerifyStop.hashMismatch 1
              else VerifyStop.panicSlice 1) = _
            rw [if_pos hbad]
          unfold verifyFromE
          rw [if_pos hb2, hts]
          rfl
        · have hb2 : ¬ (e1.seq ≠ n + 1) := fun hcon => hcon (hs.trans hseq)
          have hp2 : e1.prevHash ≠ q := by rw [← hprev]; exact hbad
          have hts : tamperStop e (some e1)
              = (if sliceablePrefix16 e1.prevHash then VerifyStop.prevHashMismatch 1
                 else VerifyStop.panicSlice 1) := by
            show (if e1.seq ≠ e.seq then VerifyStop.seqGap 1
              else if e1.prevHash ≠ e.prevHash then
                (if sliceablePrefix16 e1.prevHash then VerifyStop.prevHashMismatch 1
                 else VerifyStop.panicSlice 1)
              else if sliceablePrefix16 e1.hash then VerifyStop.hashMismatch 1
              else VerifyStop.panicSlice 1) = _
            rw [if_neg (fun hcon => hcon hs), if_pos hbad]
          unfold verifyFromE
          rw [if_neg hb2, if_pos hp2, hts]
          cases sliceablePrefix16 e1.prevHash <;> simp [VerifyStop.bumpN]
        · have hb2 : ¬ (e1.seq ≠ n + 1) := fun hcon => hcon (hs.trans hseq)
          have hp2 : ¬ (e1.prevHash ≠ q) := fun hcon => hcon (hp.trans hprev)
          have hts : tamperStop e (some e1)
              = (if sliceablePrefix16 e1.hash then VerifyStop.hashMismatch 1
                 else VerifyStop.panicSlice 1) := by
            show (if e1.seq ≠ e.seq then VerifyStop.seqGap 1
              else if e1.prevHash ≠ e.prevHash then
                (if sliceablePrefix16 e1.prevHash then VerifyStop.prevHashMismatch 1
                 else VerifyStop.panicSlice 1)
              else if sliceablePrefix16 e1.hash then VerifyStop.hashMismatch 1
              else VerifyStop.panicSlice 1) = _
            rw [if_neg (fun hcon => hcon hs), if_neg (fun hcon => hcon hp)]
          unfold verifyFromE
          rw [if_neg hb2, if_neg hp2, if_pos hbad, hts]
          cases sliceablePrefix16 e1.hash <;> simp [VerifyStop.bumpN]
    | j + 1 =>
      simp only [List.map, List.set]
      have hj : j < rest.length := by simpa using hi
      have hget : (e :: rest).get ⟨j + 1, hi⟩ = rest.get ⟨j, hj⟩ := rfl
      rw [hget] at hx ⊢
      have hihx := ih e.hash e.seq j x hrest hj hx
      show verifyFromE q n (some e :: (rest.map some).set j x)
        = some (VerifyStop.bumpN (j + 1) (tamperStop (rest.get ⟨j, hj⟩) x))
      unfold verifyFromE
      rw [if_neg (fun hc => hc hseq), if_neg (fun hc => hc hprev),
        if_neg (fun hc => hc hhash), hihx]
      simp only [Option.map_some']
      rw [VerifyStop.bump_bumpN]

/-- C2 (amended): Verify walks the file top to bottom checking JSON
parsability, the sequence increment, the prev_hash link, and the
recomputed hash, stopping at the first violating line (the prefix before
the stop line passes). An unparsable line or a sequence gap is reported
with its 1-based index; a prev_hash or hash mismatch is reported with
its index when the stored string holds at least 16 bytes, but crashes
the run — a slice-bounds panic in the `entry.PrevHash[:16]` /
`entry.Hash[:16]` of the error formatting — when the tampered stored
string is shorter. Verify accepts exactly the files satisfying the chain
equations, and replacing any line of an accepted file with a
`tamperedAt` modification — one that breaks a chain equation at that
line: a parse failure, a changed seq, a changed prev_hash, or a stored
hash differing from the recomputed hash (any single-field change short
of a SHA-256 collision) — makes the walk stop exactly at the modified
line with the `tamperStop` event, so the file is never accepted. A
modification that rewrites fields and restores the equations
(recomputing the hash field) is not rejected, so the original claim
fails for such rewrites of the final line. -/
theorem verify_reject_characterization
    (es2 : List Entry) (lines : List (Option Entry)) (v : VerifyStop)
    (es : List Entry) (i : Nat) (x : Option Entry)
    (hk : verifyLinesE lines = some v)
    (hacc : verifyLines (es.map some) = none)
    (hi : i < es.length)
    (hx : tamperedAt (es.get ⟨i, hi⟩) x) :
    (verifyLines (es2.map some) = none ↔ chainOkB es2 = true)
      ∧ (verifyLines (lines.take (VerifyStop.line v - 1)) = none
          ∧ verifyLines (lines.take (VerifyStop.line v))
              = some (VerifyStop.line v))
      ∧ verifyLinesE ((es.map some).set i x)
          = some (VerifyStop.bumpN i (tamperStop (es.get ⟨i, hi⟩) x))
      ∧ (VerifyStop.bumpN i (tamperStop (es.get ⟨i, hi⟩) x)).line = i + 1 := by
  have hkl : verifyLines lines = some (VerifyStop.line v) := by
    unfold verifyLinesE at hk
    unfold verifyLines verifyFrom
    rw [hk]
    rfl
  have haccE : verifyFromE genesisHash 0 (es.map some) = none := by
    unfold verifyLines verifyFrom at hacc
    cases hE : verifyFromE genesisHash 0 (es.map some) with
    | none => rfl
    | some w => rw [hE] at hacc; simp at hacc
  refine ⟨verifyFrom_map_some_iff es2 genesisHash 0,
    verifyFrom_first_mismatch lines genesisHash 0 (VerifyStop.line v) hkl,
    verifyFromE_tamper es genesisHash 0 i x haccE hi hx, ?_⟩
  rw [VerifyStop.bumpN_line, tamperStop_line]
  omega

/-- The all-empty `Log` payload, used to build concrete audit entries. -/
def p0 : LogPayload :=
  { pipeline := "", ts := "", segments := [], tiers := [], exitCode := 0,
    error := "", durationUs := 0, cwd := "", retry := false }

/-- The first entry a fresh logger appends for payload `p0`. -/
def ce : Entry := (logStep { seq := 0, prevHash := genesisHash } p0).2

/-- `ce` with its pipeline field rewritten and its hash field recomputed
to match — a tampered line whose chain equations still hold. -/
def ceT : Entry :=
  { seq := ce.seq, ts := ce.ts, prevHash := ce.prevHash, pipeline := "tampered",
    segments := ce.segments, tiers := ce.tiers, retry := ce.retry,
    exitCode := ce.exitCode, error := ce.error, durationUs := ce.durationUs,
    cwd := ce.cwd, policyLevel := ce.policyLevel, policyResult := ce.policyResult,
    policyRuleID := ce.policyRuleID, justification := ce.justification,
    safetyArg := ce.safetyArg,
    hash := computeHash
      { seq := ce.seq, ts := ce.ts, prevHash := ce.prevHash, pipeline := "tampered",
        segments := ce.segments, tiers := ce.tiers, retry := ce.retry,
        exitCode := ce.exitCode, error := ce.error, durationUs := ce.durationUs,
        cwd := ce.cwd, policyLevel := ce.policyLevel, policyResult := ce.policyResult,
        policyRuleID := ce.policyRuleID, justification := ce.justification,
        safetyArg := ce.safetyArg, hash := "" } }

/-- C2 counterexample: the file `[ce]` is accepted; rewriting its only
line to `ceT` changes the pipeline field (and the hash field), yet Verify
also accepts the modified file — no error is returned at or before the
modified line, refuting the claim for modifications that recompute the
hash. -/
theorem verify_reject_counterexample :
    verifyLines [some ce] = none
      ∧ ceT.pipeline ≠ ce.pipeline
      ∧ ceT ≠ ce
      ∧ verifyLines ((([ce].map some)).set 0 (some ceT)) = none := by
  have hce : verifyLines [some ce] = none := by
    have h := chainFromB_runLog { seq := 0, prevHash := genesisHash } [p0]
    have hrun : (runLog { seq := 0, prevHash := genesisHash } [p0]).2 = [ce] := rfl
    rw [hrun] at h
    exact (verifyFrom_map_some_iff [ce] genesisHash 0).mpr h
  have hpipe : ceT.pipeline ≠ ce.pipeline := by
    show "tampered" ≠ (logStep { seq := 0, prevHash := genesisHash } p0).2.pipeline
    simp [logStep, p0]
  refine ⟨hce, hpipe, fun hcontra => hpipe (congrArg Entry.pipeline hcontra), ?_⟩
  apply (verifyFrom_map_some_iff [ceT] genesisHash 0).mpr
  show chainFromB genesisHash 0 [ceT] = true
  simp only [chainFromB, Bool.and_eq_true, decide_eq_true_eq]
  exact ⟨⟨⟨rfl, rfl⟩, rfl⟩, trivial⟩

/-- Witness for C2: a concrete rejected file (one unparsable line, the
walk stopping at line 1 with an accepted empty prefix) and a concrete
accepted file whose first line, tampered to carry seq 99, stops the walk
at line 1 with a reported sequence-gap error. -/
theorem verify_reject_characterization_witness :
    (verifyLinesE [(none : Option Entry)] = some (.invalidJSON 1)
        ∧ verifyLines (([ce].map some)) = none
        ∧ 0 < [ce].length
        ∧ tamperedAt ce (some { ce with seq := 99 }))
      ∧ ((verifyLines (([] : List Entry).map some) = none ↔ chainOkB [] = true)
          ∧ (verifyLines ([(none : Option Entry)].take
                ((VerifyStop.invalidJSON 1).line - 1)) = none
              ∧ verifyLines ([(none : Option Entry)].take
                    (VerifyStop.invalidJSON 1).line)
                  = some (VerifyStop.invalidJSON 1).line)
          ∧ verifyLinesE (([ce].map some).set 0 (some { ce with seq := 99 }))
              = some (VerifyStop.bumpN 0 (tamperStop ce (some { ce with seq := 99 })))
          ∧ (VerifyStop.bumpN 0 (tamperStop ce (some { ce with seq := 99 }))).line
              = 0 + 1) := by
  have hacc : verifyLines ([ce].map some) = none := by
    have h := chainFromB_runLog { seq := 0, prevHash := genesisHash } [p0]
    have hrun : (runLog { seq := 0, prevHash := genesisHash } [p0]).2 = [ce] := rfl
    rw [hrun] at h
    exact (verifyFrom_map_some_iff [ce] genesisHash 0).mpr h
  have hk : verifyLinesE [(none : Option Entry)] = some (.invalidJSON 1) := rfl
  have ht : tamperedAt ce (some { ce with seq := 99 }) := by
    left
    show (99 : Nat) ≠ ce.seq
    have : ce.seq = 1 := rfl
    omega
  exact ⟨⟨hk, hacc, by simp, ht⟩,
    verify_reject_characterization [] [(none : Option Entry)] (.invalidJSON 1) [ce] 0
      (some { ce with seq := 99 }) hk hacc (by simp) ht⟩

/-- C10: when the last line of an existing audit file does not parse as
an Entry, `NewLogger` still succeeds, seeded with sequence 0 and the
genesis cursor, so the next `Log` call appends an entry with seq 1 and
prev_hash equal to the genesis hash — and `Verify` rejects the combined
file, which still contains the unparsable line. -/
theorem newlogger_malformed_tail (lines : List (Option Entry)) (p : LogPayload)
    (hne : lines ≠ []) (hlast : lines.getLast? = some none) :
    newLogger lines = { seq := 0, prevHash := genesisHash }
      ∧ (logStep (newLogger lines) p).2.seq = 1
      ∧ (logStep (newLogger lines) p).2.prevHash = genesisHash
      ∧ verifyLines (lines ++ [some (logStep (newLogger lines) p).2]) ≠ none := by
  have hnew : newLogger lines = { seq := 0, prevHash := genesisHash } := by
    unfold newLogger
    rw [hlast]
  refine ⟨hnew, by rw [hnew]; rfl, by rw [hnew]; rfl, ?_⟩
  intro hcontra
  have hmem : (none : Option Entry) ∈ lines ++ [some (logStep (newLogger lines) p).2] := by
    apply List.mem_append_left
    have hl := List.getLast?_eq_getLast lines hne
    rw [hlast] at hl
    rw [show (none : Option Entry) = lines.getLast hne from Option.some.inj hl]
    exact List.getLast_mem hne
  exact verifyFrom_none_all_parsed genesisHash 0 _ hcontra hmem

/-! ## Helper lemmas: list searches -/

/-- `findSome?` succeeds when some member succeeds. -/
theorem findSome?_isSome_of_mem {α β : Type} (f : α → Option β) {l : List α} {x : α}
    (hx : x ∈ l) (hfx : (f x).isSome = true) : (l.findSome? f).isSome = true := by
  induction l with
  | nil => cases hx
  | cons y ys ih =>
    simp only [List.findSome?]
    cases hy : f y with
    | some b => simp
    | none =>
      rcases List.mem_cons.mp hx with rfl | hmem
      · rw [hy] at hfx; simp at hfx
      · exact ih hmem

/-- A `findSome?` result comes from some member. -/
theorem exists_of_findSome?_some {α β : Type} {f : α → Option β} {l : List α} {r : β}
    (h : l.findSome? f = some r) : ∃ x ∈ l, f x = some r := by
  induction l with
  | nil => simp [List.findSome?] at h
  | cons y ys ih =>
    simp only [List.findSome?] at h
    cases hy : f y with
    | some b =>
      rw [hy] at h
      simp at h
      exact ⟨y, by simp, by rw [hy, h]⟩
    | none =>
      rw [hy] at h
      simp at h
      obtain ⟨x, hx, hfx⟩ := ih h
      exact ⟨x, by simp [hx], hfx⟩

/-- `find?` succeeds when some member satisfies the predicate. -/
theorem find?_isSome_of_mem {α : Type} (p : α → Bool) {l : List α} {x : α}
    (hx : x ∈ l) (hpx : p x = true) : (l.find? p).isSome = true := by
  induction l with
  | nil => cases hx
  | cons y ys ih =>
    by_cases hy : p y
    · simp [List.find?, hy]
    · rcases List.mem_cons.mp hx with rfl | hmem
      · exact absurd hpx hy
      · simp only [List.find?]
        rw [Bool.of_not_eq_true hy]
        exact ih hmem

/-! ## C3: the catastrophic-rm rule -/

/-- Any result `checkRmCatastrophic` produces is a Deny carrying the rule
id deny-rm-catastrophic. -/
theorem checkRm_shape {req : Request} {r : Result}
    (h : checkRmCatastrophic req = some r) :
    r.decision = .deny ∧ r.ruleID = "deny-rm-catastrophic" := by
  obtain ⟨seg, _, hfx⟩ := exists_of_findSome?_some h
  by_cases hc : seg.capName ≠ "rm"
  · simp [hc] at hfx
  · by_cases hf : hasAnyFlag seg.args ["-r", "-R"]
    · rw [if_neg hc, if_neg (by simp [hf])] at hfx
      obtain ⟨a, _, ha2⟩ := Option.map_eq_some'.mp hfx
      rw [← ha2]
      exact ⟨rfl, rfl⟩
    · rw [if_neg hc, if_pos (by simpa using hf)] at hfx
      cases hfx

/-- C3: a Request containing an rm segment whose args carry a recursive
flag (per the combined-short-flag matching of hasAnyFlag) and a non-flag
arg that cleans to `/`, `.` or `..`, or is `~` or starts with `~/`, is
denied by Level 1 under rule deny-rm-catastrophic, identically for
retry=true and retry=false. -/
theorem rm_catastrophic_denies (cfgRules : List (String × CapRuleConfig))
    (req : Request) (seg : Seg) (a : String)
    (hseg : seg ∈ req.segments) (hcap : seg.capName = "rm")
    (hflag : hasAnyFlag seg.args ["-r", "-R"] = true)
    (ha : a ∈ seg.args) (hne : a ≠ "") (hnf : hasPrefixStr a "-" = false)
    (hbad : filepathClean a = "/" ∨ filepathClean a = "." ∨ filepathClean a = ".."
      ∨ a = "~" ∨ hasPrefixStr a "~/" = true) :
    (l1Evaluate cfgRules req).decision = .deny
      ∧ (l1Evaluate cfgRules req).ruleID = "deny-rm-catastrophic"
      ∧ l1Evaluate cfgRules { req with retry := true }
          = l1Evaluate cfgRules { req with retry := false } := by
  have hbadB : rmBadArg a = true := by
    unfold rmBadArg
    rw [hnf]
    rcases hbad with h | h | h | h | h <;> simp [h, hne]
  have hfseg : (checkRmCatastrophic req).isSome = true := by
    apply findSome?_isSome_of_mem _ hseg
    rw [if_neg (by simp [hcap]), if_neg (by simp [hflag])]
    obtain ⟨b, hb⟩ := Option.isSome_iff_exists.mp (find?_isSome_of_mem rmBadArg ha hbadB)
    rw [hb]
    rfl
  obtain ⟨r, hr⟩ := Option.isSome_iff_exists.mp hfseg
  obtain ⟨hdec, hrid⟩ := checkRm_shape hr
  have heval : ∀ req2 : Request, checkRmCatastrophic req2 = some r →
      l1Evaluate cfgRules req2 = r := by
    intro req2 h2
    unfold l1Evaluate newLevel1 l1Go
    simp [h2]
  have hsame : ∀ b : Bool, checkRmCatastrophic { req with retry := b }
      = checkRmCatastrophic req := fun _ => rfl
  have he := heval req hr
  rw [he]
  refine ⟨hdec, hrid, ?_⟩
  rw [heval _ ((hsame true).trans hr), heval _ ((hsame false).trans hr)]

/-- The `rm -rf /` segment used by the C3 witness. -/
def rmSegW : Seg := { capName := "rm", args := ["-rf", "/"], tier := .dangerous }

/-- The `rm -rf /` request used by the C3 witness. -/
def rmReqW : Request :=
  { command := "rm -rf /", segments := [rmSegW], cwd := "/", retry := false,
    hasRedirectOut := false, justification := "", safetyArg := "" }

/-- Witness for C3: `rm -rf /`, evaluated with an empty config. -/
theorem rm_catastrophic_denies_witness :
    (rmSegW ∈ rmReqW.segments ∧ rmSegW.capName = "rm"
      ∧ hasAnyFlag rmSegW.args ["-r", "-R"] = true
      ∧ "/" ∈ rmSegW.args ∧ filepathClean "/" = "/")
      ∧ ((l1Evaluate [] rmReqW).decision = .deny
        ∧ (l1Evaluate [] rmReqW).ruleID = "deny-rm-catastrophic") := by
  refine ⟨⟨by decide, by decide, by decide, by decide, by decide⟩, ?_⟩
  have h := rm_catastrophic_denies [] rmReqW rmSegW "/"
    (by decide) (by decide) (by decide) (by decide) (by decide) (by decide)
    (by decide)
  exact ⟨h.1, h.2.1⟩

/-! ## C6: the safe-pipeline auto-allow -/

/-- A rule whose check has no opinion does not affect the walk. -/
theorem l1Go_cons_skip (req : Request) (r : Rule) (rs : List Rule)
    (h : r.check req = none) : l1Go req (r :: rs) = l1Go req rs := by
  simp only [l1Go]
  by_cases hb : r.bypassable && req.retry
  · rw [if_pos hb]
  · rw [if_neg hb, h]

/-- Rules whose checks have no opinion do not affect the walk. -/
theorem l1Go_append_none (req : Request) (rs1 rs2 : List Rule)
    (h : ∀ r ∈ rs1, r.check req = none) :
    l1Go req (rs1 ++ rs2) = l1Go req rs2 := by
  induction rs1 with
  | nil => rfl
  | cons r rs ih =>
    have hr := h r (by simp)
    have hrest : ∀ x ∈ rs, x.check req = none := fun x hx => h x (by simp [hx])
    simp only [List.cons_append, l1Go]
    by_cases hb : r.bypassable && req.retry
    · rw [if_pos hb]
      exact ih hrest
    · rw [if_neg hb, hr]
      exact ih hrest

/-- C6 (amended): a Request with retry=false, a non-empty segment list,
every segment read tier and no output redirect is allowed under rule
allow-safe-pipeline, provided no earlier deny rule fires: the
rm-catastrophic and git-checkout-all checks have no opinion and no
config-derived flag-reject rule matches. (The original claim fails
without these provisos: deny rules precede the auto-allow, and an empty
segment list escalates.) -/
theorem safe_pipeline_allow (cfgRules : List (String × CapRuleConfig)) (req : Request)
    (hretry : req.retry = false) (hne : req.segments ≠ [])
    (htier : ∀ s ∈ req.segments, s.tier = .read)
    (hredir : req.hasRedirectOut = false)
    (hrm : checkRmCatastrophic req = none)
    (hgit : checkGitCheckoutAll req = none)
    (hcfg : ∀ nc ∈ cfgRules, ∀ r ∈ compileConfigRules nc.1 nc.2, r.check req = none) :
    l1Evaluate cfgRules req = safePipelineResult := by
  have hsafe : checkSafePipeline req = some safePipelineResult := by
    unfold checkSafePipeline
    rw [hredir]
    rw [if_neg (by simp)]
    obtain ⟨s0, rest0, hs⟩ := List.exists_cons_of_ne_nil hne
    rw [hs]
    rw [if_neg (by simp)]
    rw [if_pos (by
      apply List.all_eq_true.mpr
      intro s hmem
      simp [htier s (hs ▸ hmem)])]
  unfold l1Evaluate newLevel1
  rw [l1Go_cons_skip req _ _ hrm]
  rw [l1Go_append_none req _ _ (by
    intro r hr
    obtain ⟨nc, hnc, hrc⟩ := List.mem_flatMap.mp hr
    exact hcfg nc hnc r hrc)]
  rw [l1Go_cons_skip req _ _ hgit]
  simp only [l1Go]
  rw [if_neg (by simp), hsafe]

/-- The `git checkout .` read-tier request of the C6 counterexample. -/
def gitCoReqW : Request :=
  { command := "git checkout .",
    segments := [{ capName := "git", args := ["checkout", "."], tier := .read }],
    cwd := "", retry := false, hasRedirectOut := false,
    justification := "", safetyArg := "" }

/-- The empty-segment request of the C6 counterexample. -/
def emptyReqW : Request :=
  { command := "", segments := [], cwd := "", retry := false,
    hasRedirectOut := false, justification := "", safetyArg := "" }

/-- C6 counterexample: with retry=false, no output redirect and every
segment read tier, `git checkout .` is denied by deny-git-checkout-all
(not allowed by allow-safe-pipeline), and the empty segment list
escalates — so the claim as stated fails. -/
theorem safe_pipeline_claim_counterexample :
    ((∀ s ∈ gitCoReqW.segments, s.tier = .read) ∧ gitCoReqW.retry = false
      ∧ gitCoReqW.hasRedirectOut = false
      ∧ (l1Evaluate [] gitCoReqW).decision = .deny
      ∧ (l1Evaluate [] gitCoReqW).ruleID = "deny-git-checkout-all")
    ∧ ((∀ s ∈ emptyReqW.segments, s.tier = .read) ∧ emptyReqW.retry = false
      ∧ emptyReqW.hasRedirectOut = false
      ∧ (l1Evaluate [] emptyReqW).decision = .escalate) := by
  decide

/-- The read-only request of the C6 witness. -/
def grepReqW : Request :=
  { command := "grep foo",
    segments := [{ capName := "grep", args := ["foo"], tier := .read }],
    cwd := "", retry := false, hasRedirectOut := false,
    justification := "", safetyArg := "" }

/-- The one-entry config of the C6 witness (`make: reject -j`). -/
def cfgW : List (String × CapRuleConfig) :=
  [("make", { rejectFlags := ["-j"], subcommands := [] })]

/-- Witness for C6: a read-only `grep` request under a config that
rejects `make -j`. -/
theorem safe_pipeline_allow_witness :
    (grepReqW.retry = false ∧ grepReqW.segments ≠ []
      ∧ (∀ s ∈ grepReqW.segments, s.tier = .read)
      ∧ grepReqW.hasRedirectOut = false
      ∧ checkRmCatastrophic grepReqW = none
      ∧ checkGitCheckoutAll grepReqW = none
      ∧ (∀ nc ∈ cfgW, ∀ r ∈ compileConfigRules nc.1 nc.2, r.check grepReqW = none))
      ∧ l1Evaluate cfgW grepReqW = safePipelineResult := by
  refine ⟨⟨by decide, by decide, by decide, by decide, by decide, by decide, ?_⟩, ?_⟩
  · intro nc hnc r hr
    fin_cases hnc
    · fin_cases hr
      decide
  · exact safe_pipeline_allow cfgW grepReqW (by decide) (by decide) (by decide)
      (by decide) (by decide) (by decide)
      (by
        intro nc hnc r hr
        fin_cases hnc
        · fin_cases hr
          decide)

/-! ## C7: Level 2 evaluation -/

/-- The per-segment decision as the claim words it: the first approved
entry whose criteria match decides; an unmatched read-tier segment is
implicitly allowed; anything else escalates. -/
def claimMatchDecision (entries : List PolicyEntry) (seg : Seg) : Decision :=
  match entries.find? (fun e => e.approved && matchesCriteria seg e.match_) with
  | some e =>
    if e.decision = "allow" then .allow
    else if e.decision = "deny" then .deny
    else .escalate
  | none => if seg.tier = .read then .allow else .escalate

/-- The pipeline-level combination as the claim words it: any Deny wins,
all Allow yields Allow, anything else escalates. -/
def combineSpec (ds : List Decision) : Decision :=
  if ds.contains .deny then .deny
  else if ds.all (fun d => d = .allow) then .allow
  else .escalate

/-- Under valid entry decisions, `matchSegment` computes the claim-side
per-segment decision. -/
theorem matchSegment_decision (entries : List PolicyEntry) (seg : Seg)
    (hvalid : ∀ e ∈ entries,
      e.decision = "allow" ∨ e.decision = "deny" ∨ e.decision = "escalate") :
    (matchSegment entries seg).decision = claimMatchDecision entries seg := by
  induction entries with
  | nil =>
    by_cases ht : seg.tier = .read
    · simp [matchSegment, claimMatchDecision, ht]
    · simp [matchSegment, claimMatchDecision, ht]
  | cons e rest ih =>
    have hrest : ∀ x ∈ rest,
        x.decision = "allow" ∨ x.decision = "deny" ∨ x.decision = "escalate" :=
      fun x hx => hvalid x (by simp [hx])
    by_cases happr : e.approved && matchesCriteria seg e.match_
    · rcases hvalid e (by simp) with hd | hd | hd <;>
        simp [matchSegment, claimMatchDecision, happr, List.find?, hd, parseDecision]
    · simp only [matchSegment, claimMatchDecision, List.find?]
      rw [if_neg (by simpa using happr)]
      rw [show (e.approved && matchesCriteria seg e.match_) = false from by
        simpa using happr]
      exact ih hrest

/-- Without a denying segment, the walk collects every per-segment
result. -/
theorem l2Collect_no_deny (entries : List PolicyEntry) (segs : List Seg)
    (h : ∀ s ∈ segs, (matchSegment entries s).decision ≠ .deny) :
    l2Collect entries segs = .ok (segs.map (matchSegment entries)) := by
  induction segs with
  | nil => rfl
  | cons s rest ih =>
    simp only [l2Collect]
    rw [if_neg (by simpa using h s (by simp))]
    rw [ih (fun x hx => h x (by simp [hx]))]
    rfl

/-- The walk short-circuits at the first denying segment, returning its
result. -/
theorem l2Collect_first_deny (entries : List PolicyEntry) (segs : List Seg)
    (sstar : Seg)
    (h : segs.find? (fun s => (matchSegment entries s).decision = .deny) = some sstar) :
    l2Collect entries segs = .error (matchSegment entries sstar) := by
  induction segs with
  | nil => simp [List.find?] at h
  | cons s rest ih =>
    by_cases hd : (matchSegment entries s).decision = .deny
    · rw [List.find?_cons_of_pos _ (by simp [hd])] at h
      simp only [Option.some.injEq] at h
      subst h
      simp only [l2Collect]
      rw [if_pos (by simp [hd])]
    · rw [List.find?_cons_of_neg _ (by simp [hd])] at h
      simp only [l2Collect]
      rw [if_neg (by simp [hd]), ih h]
      rfl

/-- `combineSpec` with a Deny present. -/
theorem combineSpec_deny (ds : List Decision) (h : ds.contains .deny = true) :
    combineSpec ds = .deny := by
  unfold combineSpec
  rw [h]
  rfl

/-- `combineSpec` without Deny, all Allow. -/
theorem combineSpec_allow (ds : List Decision) (h : ds.contains .deny = false)
    (h2 : ds.all (fun d => d = .allow) = true) : combineSpec ds = .allow := by
  unfold combineSpec
  rw [h, h2]
  rfl

/-- `combineSpec` without Deny, not all Allow. -/
theorem combineSpec_escalate (ds : List Decision) (h : ds.contains .deny = false)
    (h2 : ds.all (fun d => d = .allow) = false) : combineSpec ds = .escalate := by
  unfold combineSpec
  rw [h, h2]
  rfl

/-- Segment decisions avoid Deny exactly when no segment result denies. -/
theorem contains_deny_false_of_nodeny (entries : List PolicyEntry) (segs : List Seg)
    (h : ∀ s ∈ segs, (matchSegment entries s).decision ≠ .deny) :
    (segs.map (fun s => (matchSegment entries s).decision)).contains .deny = false := by
  rw [Bool.eq_false_iff]
  intro hc
  obtain ⟨d, hdmem, hdeq⟩ := List.contains_iff_exists_mem_beq.mp hc
  obtain ⟨s, hsmem, hsd⟩ := List.mem_map.mp hdmem
  refine h s hsmem ?_
  rw [hsd]
  exact (by simpa using hdeq : Decision.deny = d).symm

/-- All-allow over results and over decisions coincide. -/
theorem all_allow_map (entries : List PolicyEntry) (segs : List Seg) :
    ((segs.map (matchSegment entries)).all (fun r => r.decision = .allow))
      = (segs.map (fun s => (matchSegment entries s).decision)).all
          (fun d => d = .allow) := by
  induction segs with
  | nil => rfl
  | cons s rest ih => simp only [List.map, List.all_cons, ih]

/-- `l2Evaluate` on a non-retry request with a non-empty segment list is
the post-processing of the collected walk. -/
theorem l2Evaluate_cons (entries : List PolicyEntry) (req : Request)
    (s0 : Seg) (rest : List Seg)
    (hretry : req.retry = false) (hs : req.segments = s0 :: rest) :
    l2Evaluate entries req
      = (match l2Collect entries (s0 :: rest) with
         | .error r => r
         | .ok [r] => r
         | .ok rs =>
           if rs.all (fun r => r.decision = .allow) then
             { decision := .allow, level := 2,
               reason := "all segments allowed by learned policy", ruleID := "" }
           else
             { decision := .escalate, level := 2,
               reason := "no learned policy matched all segments", ruleID := "" }) := by
  unfold l2Evaluate
  rw [hretry, if_neg (by simp), hs]

/-- C7: Level 2 escalates outright on retry; otherwise each segment takes
the decision of its first matching approved entry in file order (skipping
unapproved entries), an unmatched read-tier segment is implicitly
allowed, and the per-segment decisions combine with Deny dominant
(short-circuiting at the first denying segment, whose result is
returned), all-Allow yielding Allow, and anything else escalating. -/
theorem l2_evaluate_spec (entries : List PolicyEntry) (req : Request)
    (hvalid : ∀ e ∈ entries,
      e.decision = "allow" ∨ e.decision = "deny" ∨ e.decision = "escalate")
    (hretry : req.retry = false) (hne : req.segments ≠ []) :
    l2Evaluate entries { req with retry := true }
        = { decision := .escalate, level := 2, reason := "--retry bypasses Level 2",
            ruleID := "" }
      ∧ req.segments.map (fun s => (matchSegment entries s).decision)
          = req.segments.map (claimMatchDecision entries)
      ∧ (l2Evaluate entries req).decision
          = combineSpec (req.segments.map (fun s => (matchSegment entries s).decision))
      ∧ (req.segments.find?
            (fun s => (matchSegment entries s).decision = .deny)).elim True
          (fun s => l2Evaluate entries req = matchSegment entries s) := by
  obtain ⟨s0, rest, hs⟩ := List.exists_cons_of_ne_nil hne
  refine ⟨by simp [l2Evaluate], ?_, ?_, ?_⟩
  · exact List.map_congr_left (fun s _ => matchSegment_decision entries s hvalid)
  · rw [l2Evaluate_cons entries req s0 rest hretry hs, hs]
    cases hfind : (s0 :: rest).find?
        (fun s => (matchSegment entries s).decision = .deny) with
    | some sstar =>
      have hdeny : (matchSegment entries sstar).decision = .deny := by
        have := List.find?_some hfind
        simpa using this
      have hmem := List.mem_of_find?_eq_some hfind
      have hcontains : ((s0 :: rest).map
          (fun s => (matchSegment entries s).decision)).contains .deny = true := by
        apply List.contains_iff_exists_mem_beq.mpr
        exact ⟨(matchSegment entries sstar).decision, List.mem_map_of_mem _ hmem,
          by simp [hdeny]⟩
      rw [combineSpec_deny _ hcontains, l2Collect_first_deny entries _ sstar hfind]
      exact hdeny
    | none =>
      have hnodeny : ∀ s ∈ s0 :: rest, (matchSegment entries s).decision ≠ .deny := by
        intro s hmem
        have := List.find?_eq_none.mp hfind s hmem
        simpa using this
      have hnocont := contains_deny_false_of_nodeny entries (s0 :: rest) hnodeny
      rw [l2Collect_no_deny entries _ hnodeny]
      match rest, hnodeny, hnocont with
      | [], hnodeny, hnocont =>
        have h0 := hnodeny s0 (by simp)
        rcases hd : (matchSegment entries s0).decision with _ | _ | _
        · rw [combineSpec_allow _ hnocont (by simp [hd])]
          exact hd
        · exact absurd hd h0
        · rw [combineSpec_escalate _ hnocont (by simp [hd])]
          exact hd
      | s1 :: rest1, hnodeny, hnocont =>
        simp only [List.map]
        simp only [List.map] at hnocont
        have hconv := all_allow_map entries (s0 :: s1 :: rest1)
        simp only [List.map] at hconv
        cases hall : ((matchSegment entries s0 :: matchSegment entries s1 ::
            rest1.map (matchSegment entries) : List Result)).all
            (fun r => r.decision = .allow) with
        | true =>
          rw [combineSpec_allow _ hnocont (by rw [← hconv]; exact hall)]
          rfl
        | false =>
          rw [combineSpec_escalate _ hnocont (by rw [← hconv]; exact hall)]
          rfl
  · cases hfind : req.segments.find?
        (fun s => (matchSegment entries s).decision = .deny) with
    | none => simp [Option.elim]
    | some sstar =>
      simp only [Option.elim]
      rw [l2Evaluate_cons entries req s0 rest hretry hs]
      rw [l2Collect_first_deny entries _ sstar (hs ▸ hfind)]

/-- The approved allow-everything-for-grep entry of the C7 witness. -/
def entryW : PolicyEntry :=
  { id := "p1",
    match_ := { cap := "grep", subcmd := "", hasFlags := [], noFlags := [],
                argsGlob := [] },
    decision := "allow", reasoning := "grep is fine", approved := true }

/-- The two-segment request of the C7 witness. -/
def twoSegReqW : Request :=
  { command := "grep a ¦ grep b",
    segments := [{ capName := "grep", args := ["a"], tier := .read },
                 { capName := "grep", args := ["b"], tier := .read }],
    cwd := "", retry := false, hasRedirectOut := false,
    justification := "", safetyArg := "" }

/-- Witness for C7: one approved allow entry over a two-grep pipeline. -/
theorem l2_evaluate_spec_witness :
    ((∀ e ∈ [entryW],
        e.decision = "allow" ∨ e.decision = "deny" ∨ e.decision = "escalate")
      ∧ twoSegReqW.retry = false ∧ twoSegReqW.segments ≠ [])
      ∧ (l2Evaluate [entryW] { twoSegReqW with retry := true }
            = { decision := .escalate, level := 2,
                reason := "--retry bypasses Level 2", ruleID := "" }
        ∧ twoSegReqW.segments.map (fun s => (matchSegment [entryW] s).decision)
            = twoSegReqW.segments.map (claimMatchDecision [entryW])
        ∧ (l2Evaluate [entryW] twoSegReqW).decision
            = combineSpec (twoSegReqW.segments.map
                (fun s => (matchSegment [entryW] s).decision))
        ∧ (twoSegReqW.segments.find?
              (fun s => (matchSegment [entryW] s).decision = .deny)).elim True
            (fun s => l2Evaluate [entryW] twoSegReqW = matchSegment [entryW] s)) :=
  ⟨⟨by decide, by decide, by decide⟩,
   l2_evaluate_spec [entryW] twoSegReqW (by decide) (by decide) (by decide)⟩

/-! ## C4: approval token store -/

/-- Deleting a token removes it. -/
theorem lookup_erase_self (s : TokenStore) (t : String) :
    lookupTok (eraseTok s t) t = none := by
  induction s with
  | nil => rfl
  | cons kv rest ih =>
    unfold eraseTok at ih ⊢
    unfold lookupTok at ih ⊢
    by_cases hk : kv.1 = t
    · simp only [List.filter]
      rw [show (decide (kv.1 ≠ t)) = false from by simp [hk]]
      exact ih
    · simp only [List.filter]
      rw [show (decide (kv.1 ≠ t)) = true from by simp [hk]]
      simp only [List.find?]
      rw [show (decide (kv.1 = t)) = false from by simp [hk]]
      exact ih

/-- Deleting one token leaves the others. -/
theorem lookup_erase_other (s : TokenStore) (t t1 : String) (h : t ≠ t1) :
    lookupTok (eraseTok s t1) t = lookupTok s t := by
  induction s with
  | nil => rfl
  | cons kv rest ih =>
    unfold eraseTok at ih ⊢
    unfold lookupTok at ih ⊢
    by_cases hk : kv.1 = t1
    · simp only [List.filter]
      rw [show (decide (kv.1 ≠ t1)) = false from by simp [hk]]
      rw [ih]
      simp only [List.find?]
      rw [show (decide (kv.1 = t)) = false from by rw [hk]; simp [Ne.symm h]]
    · simp only [List.filter]
      rw [show (decide (kv.1 ≠ t1)) = true from by simp [hk]]
      simp only [List.find?]
      by_cases hkt : kv.1 = t
      · rw [show (decide (kv.1 = t)) = true from by simp [hkt]]
      · rw [show (decide (kv.1 = t)) = false from by simp [hkt]]
        exact ih

/-- Validate always leaves the store without the token. -/
theorem validate_store_erase (s : TokenStore) (t : String) (args : List String)
    (now : Nat) : (validateTok s t args now).1 = eraseTok s t := by
  unfold validateTok
  split
  case _ hl =>
    show s = eraseTok s t
    symm
    simp only [eraseTok]
    apply List.filter_eq_self.mpr
    intro kv hkv
    unfold lookupTok at hl
    have hf : List.find? (fun kv => kv.1 = t) s = none := by
      cases hf : List.find? (fun kv => kv.1 = t) s with
      | none => rfl
      | some x => rw [hf] at hl; simp at hl
    have := List.find?_eq_none.mp hf kv hkv
    simpa using this
  case _ en hl =>
    split
    · rfl
    · split
      · rfl
      · rfl

/-- Validate succeeds exactly on a present, unexpired token with the
original argv, returning the stored entry. -/
theorem validate_ok_iff (s : TokenStore) (t : String) (args : List String)
    (now : Nat) (e : TokenEntry) :
    (validateTok s t args now).2 = .ok e
      ↔ (lookupTok s t = some e ∧ now ≤ e.expiresAt ∧ args = e.args) := by
  unfold validateTok
  split
  case _ hl =>
    rw [hl]
    simp
  case _ en hl =>
    rw [hl]
    simp only [Option.some.injEq]
    split
    · next h1 =>
      constructor
      · intro h; cases h
      · rintro ⟨rfl, h2, _⟩; omega
    · next h1 =>
      split
      · next h2 =>
        constructor
        · intro h; cases h
        · rintro ⟨rfl, _, h3⟩; exact absurd h3 h2
      · next h2 =>
        constructor
        · intro h
          cases h
          exact ⟨rfl, by omega, by simpa using h2⟩
        · rintro ⟨rfl, _, _⟩; rfl

/-- The error/success dichotomy of Validate, phrased on the lookup. -/
theorem validate_isOk_iff (s : TokenStore) (t : String) (args : List String)
    (now : Nat) :
    ((validateTok s t args now).2.toOption.isSome = true
      ↔ match lookupTok s t with
        | none => False
        | some en => now ≤ en.expiresAt ∧ args = en.args) := by
  unfold validateTok
  split
  case _ hl =>
    simp [Except.toOption]
  case _ en hl =>
    show (if now > en.expiresAt then
        (eraseTok s t, (Except.error "approval token expired" : Except String TokenEntry))
      else if args ≠ en.args then
        (eraseTok s t, Except.error "approval token args mismatch")
      else (eraseTok s t, Except.ok en)).2.toOption.isSome = true
      ↔ now ≤ en.expiresAt ∧ args = en.args
    split
    · next h1 =>
      simp only [Except.toOption]
      constructor
      · intro h; simp at h
      · rintro ⟨h2, _⟩; omega
    · next h1 =>
      split
      · next h2 =>
        simp only [Except.toOption]
        constructor
        · intro h; simp at h
        · rintro ⟨_, h3⟩; exact absurd h3 h2
      · next h2 =>
        simp only [Except.toOption]
        constructor
        · intro _; exact ⟨by omega, by simpa using h2⟩
        · intro _; simp

/-- Issuing with a different token preserves presence. -/
theorem lookup_issue_other (s : TokenStore) (t t1 : String) (c : String)
    (a : List String) (now ttl : Nat) (h : t1 ≠ t) :
    lookupTok (issueTok s t1 c a now ttl) t = lookupTok s t := by
  unfold issueTok lookupTok
  simp only [List.find?]
  rw [show (decide (t1 = t)) = false from by simp [h]]
  exact lookup_erase_other s t t1 (fun hc => h hc.symm)

/-- Purging can only remove presence. -/
theorem lookup_purge_isSome (s : TokenStore) (t : String) (now : Nat)
    (h : (lookupTok (purgeTok s now) t).isSome = true) :
    (lookupTok s t).isSome = true := by
  unfold lookupTok at h ⊢
  cases hf : List.find? (fun kv => kv.1 = t) (purgeTok s now) with
  | none => rw [hf] at h; simp at h
  | some x =>
    have hmem : x ∈ purgeTok s now := List.mem_of_find?_eq_some hf
    have hx := List.find?_some hf
    have hmem2 : x ∈ s := List.mem_of_mem_filter hmem
    obtain ⟨y, hy⟩ := Option.isSome_iff_exists.mp
      (find?_isSome_of_mem (fun kv => decide (kv.1 = t)) hmem2 hx)
    rw [hy]
    rfl

/-- Validate on a store missing the token reports it unknown. -/
theorem validate_missing (s : TokenStore) (t : String) (args : List String)
    (now : Nat) (h : lookupTok s t = none) :
    (validateTok s t args now).2 = .error "unknown or expired approval token" := by
  unfold validateTok
  split
  · rfl
  · next en hl => rw [h] at hl; cases hl

/-- Across any linearized history, a token validates successfully at most
as often as it is issued, plus one if initially present. -/
theorem successCount_le (t : String) (ops : List TokOp) : ∀ s : TokenStore,
    successCount s t ops
      ≤ issueCount t ops + (if (lookupTok s t).isSome then 1 else 0) := by
  induction ops with
  | nil => intro s; simp [successCount, issueCount]
  | cons op rest ih =>
    intro s
    cases op with
    | issue t1 c a now ttl =>
      simp only [successCount, issueCount, tokStep]
      by_cases ht : t1 = t
      · subst ht
        have hlook : (lookupTok (issueTok s t1 c a now ttl) t1).isSome = true := by
          unfold issueTok lookupTok
          simp [List.find?]
        have hIH := ih (issueTok s t1 c a now ttl)
        rw [hlook] at hIH
        simp only [if_pos rfl] at hIH ⊢
        omega
      · have hlook := lookup_issue_other s t t1 c a now ttl ht
        have hIH := ih (issueTok s t1 c a now ttl)
        rw [hlook] at hIH
        rw [if_neg ht]
        omega
    | validate t1 a now =>
      simp only [successCount, issueCount, tokStep]
      have hstore := validate_store_erase s t1 a now
      by_cases ht : t1 = t
      · subst ht
        have hlook : lookupTok (validateTok s t1 a now).1 t1 = none := by
          rw [hstore]; exact lookup_erase_self s t1
        have hIH := ih (validateTok s t1 a now).1
        rw [hlook] at hIH
        simp only [Option.isSome_none, Bool.false_eq_true, if_false,
          Nat.add_zero] at hIH
        by_cases hsucc : (validateTok s t1 a now).2.toOption.isSome = true
        · have hpres : (lookupTok s t1).isSome = true := by
            have hiff := (validate_isOk_iff s t1 a now).mp hsucc
            cases hl : lookupTok s t1 with
            | none => rw [hl] at hiff; cases hiff
            | some en => rfl
          rw [if_pos ⟨rfl, hsucc⟩, hpres, if_pos rfl]
          omega
        · rw [if_neg (fun hc => hsucc hc.2)]
          cases hq : (lookupTok s t1).isSome with
          | true => rw [if_pos rfl]; omega
          | false =>
            rw [if_neg (by simp)]
            omega
      · rw [if_neg (fun hc => ht hc.1)]
        have hlook : lookupTok (validateTok s t1 a now).1 t = lookupTok s t := by
          rw [hstore]; exact lookup_erase_other s t t1 (fun hc => ht hc.symm)
        have hIH := ih (validateTok s t1 a now).1
        rw [hlook] at hIH
        omega
    | purge now =>
      simp only [successCount, issueCount, tokStep]
      have hIH := ih (purgeTok s now)
      by_cases hp : (lookupTok (purgeTok s now) t).isSome = true
      · have hs2 := lookup_purge_isSome s t now hp
        rw [hp] at hIH
        rw [hs2]
        simp only [if_pos rfl] at hIH ⊢
        omega
      · have hp2 : (lookupTok (purgeTok s now) t).isSome = false :=
          Bool.eq_false_iff.mpr hp
        rw [hp2] at hIH
        simp only [Bool.false_eq_true, if_false, Nat.add_zero] at hIH
        cases hq : (lookupTok s t).isSome with
        | true => rw [if_pos rfl]; omega
        | false => rw [if_neg (by simp)]; omega

/-- C4: Validate consumes its token unconditionally (the store drops it
whatever the outcome, so a second Validate fails), succeeds exactly on a
present, unexpired token with the argv bound at Issue (failing on a
missing token, on expiry even with the right argv, and on any argv
mismatch), and along any history in which the token is issued at most
once and is initially absent, at most one Validate of it succeeds. -/
theorem token_single_use (s s0 : TokenStore) (t : String)
    (args args2 : List String) (now now2 : Nat) (e : TokenEntry)
    (ops : List TokOp)
    (hfresh : lookupTok s0 t = none) (hissue : issueCount t ops ≤ 1) :
    (validateTok s t args now).1 = eraseTok s t
      ∧ lookupTok (validateTok s t args now).1 t = none
      ∧ (validateTok (validateTok s t args now).1 t args2 now2).2
          = .error "unknown or expired approval token"
      ∧ ((validateTok s t args now).2 = .ok e
          ↔ (lookupTok s t = some e ∧ now ≤ e.expiresAt ∧ args = e.args))
      ∧ ((validateTok s t args now).2.toOption.isSome = true
          ↔ match lookupTok s t with
            | none => False
            | some en => now ≤ en.expiresAt ∧ args = en.args)
      ∧ successCount s0 t ops ≤ 1 := by
  have hstore := validate_store_erase s t args now
  have hnone : lookupTok (validateTok s t args now).1 t = none := by
    rw [hstore]; exact lookup_erase_self s t
  refine ⟨hstore, hnone, validate_missing _ _ _ _ hnone,
    validate_ok_iff s t args now e, validate_isOk_iff s t args now, ?_⟩
  · have hb := successCount_le t ops s0
    rw [hfresh] at hb
    simp only [Option.isSome_none, Bool.false_eq_true, if_false,
      Nat.add_zero] at hb
    omega

/-- The token entry of the C4 witness. -/
def tokEntryW : TokenEntry :=
  { command := "git push", args := ["push"], createdAt := 0, expiresAt := 600 }

/-- The C4 witness store: one freshly issued token. -/
def tokStoreW : TokenStore := issueTok [] "ab12" "git push" ["push"] 0 600

/-- The C4 witness history: issue once, validate twice. -/
def tokOpsW : List TokOp :=
  [.issue "ab12" "git push" ["push"] 0 600,
   .validate "ab12" ["push"] 5, .validate "ab12" ["push"] 6]

/-- Witness for C4, at a concrete issued token and history. -/
theorem token_single_use_witness :
    (lookupTok [] "ab12" = none ∧ issueCount "ab12" tokOpsW ≤ 1)
      ∧ ((validateTok tokStoreW "ab12" ["push"] 5).1 = eraseTok tokStoreW "ab12"
        ∧ lookupTok (validateTok tokStoreW "ab12" ["push"] 5).1 "ab12" = none
        ∧ (validateTok (validateTok tokStoreW "ab12" ["push"] 5).1 "ab12" ["push"] 6).2
            = .error "unknown or expired approval token"
        ∧ ((validateTok tokStoreW "ab12" ["push"] 5).2 = .ok tokEntryW
            ↔ (lookupTok tokStoreW "ab12" = some tokEntryW
                ∧ 5 ≤ tokEntryW.expiresAt ∧ ["push"] = tokEntryW.args))
        ∧ ((validateTok tokStoreW "ab12" ["push"] 5).2.toOption.isSome = true
            ↔ match lookupTok tokStoreW "ab12" with
              | none => False
              | some en => 5 ≤ en.expiresAt ∧ ["push"] = en.args)
        ∧ successCount [] "ab12" tokOpsW ≤ 1) :=
  ⟨⟨rfl, by decide⟩,
   token_single_use tokStoreW [] "ab12" ["push"] ["push"] 5 6 tokEntryW tokOpsW
     rfl (by decide)⟩

/-! ## C8: Level 3 error handling -/

/-- A string with a non-empty prefix is non-empty. -/
theorem append_ne_empty (s t : String) (h : s.data ≠ []) : s ++ t ≠ "" := by
  intro hc
  apply h
  have hd : (s ++ t).data = [] := by rw [hc]
  rw [String.data_append] at hd
  exact (List.append_eq_nil.mp hd).1

/-- C8: Level 3 allows immediately on retry whatever the Prompter would
have answered; without retry, a transport error or an unparseable reply
(non-JSON, or a decision label outside allow/deny/escalate) yields an
Escalate result carrying a non-empty diagnostic reason. -/
theorem l3_error_handling (req : Request) (resp1 : Except String String)
    (err raw raw2 sr d r dmsg msg : String)
    (hretry : req.retry = false)
    (hparse : parseL3Decision raw = .error msg)
    (hstrip : stripFences raw2 = .ok sr)
    (hpayload : unmarshalL3Payload sr = .ok (d, r))
    (hd : parseDecision d = .error dmsg) :
    l3Evaluate { req with retry := true } resp1
        = { decision := .allow, level := 3, reason := "--retry bypasses Level 3",
            ruleID := "" }
      ∧ l3Evaluate req (.error err)
          = { decision := .escalate, level := 3, reason := "LLM error: " ++ err,
              ruleID := "" }
      ∧ (l3Evaluate req (.error err)).reason ≠ ""
      ∧ l3Evaluate req (.ok raw)
          = { decision := .escalate, level := 3,
              reason := "unparseable LLM response: " ++ msg, ruleID := "" }
      ∧ (l3Evaluate req (.ok raw)).reason ≠ ""
      ∧ l3Evaluate req (.ok raw2)
          = { decision := .escalate, level := 3,
              reason := "unparseable LLM response: " ++ dmsg, ruleID := "" }
      ∧ (l3Evaluate req (.ok raw2)).reason ≠ "" := by
  have herr : l3Evaluate req (.error err)
      = { decision := .escalate, level := 3, reason := "LLM error: " ++ err,
          ruleID := "" } := by
    unfold l3Evaluate
    rw [if_neg (by simp [hretry])]
  have hraw : l3Evaluate req (.ok raw)
      = { decision := .escalate, level := 3,
          reason := "unparseable LLM response: " ++ msg, ruleID := "" } := by
    unfold l3Evaluate
    rw [if_neg (by simp [hretry])]
    show (match parseL3Decision raw with
      | .error e =>
        ({ decision := .escalate, level := 3,
           reason := "unparseable LLM response: " ++ e, ruleID := "" } : Result)
      | .ok (dec, reasoning) =>
        { decision := dec, level := 3, reason := reasoning,
          ruleID := "llm-gatekeeper" }) = _
    rw [hparse]
  have hparse2 : parseL3Decision raw2 = .error dmsg := by
    unfold parseL3Decision
    rw [hstrip]
    show (match unmarshalL3Payload sr with
      | .error e => (Except.error e : Except String (Decision × String))
      | .ok (d0, reasoning) =>
        match parseDecision d0 with
        | .error e => .error e
        | .ok dec => .ok (dec, reasoning)) = _
    rw [hpayload]
    show (match parseDecision d with
      | .error e => (Except.error e : Except String (Decision × String))
      | .ok dec => .ok (dec, r)) = _
    rw [hd]
  have hraw2 : l3Evaluate req (.ok raw2)
      = { decision := .escalate, level := 3,
          reason := "unparseable LLM response: " ++ dmsg, ruleID := "" } := by
    unfold l3Evaluate
    rw [if_neg (by simp [hretry])]
    show (match parseL3Decision raw2 with
      | .error e =>
        ({ decision := .escalate, level := 3,
           reason := "unparseable LLM response: " ++ e, ruleID := "" } : Result)
      | .ok (dec, reasoning) =>
        { decision := dec, level := 3, reason := reasoning,
          ruleID := "llm-gatekeeper" }) = _
    rw [hparse2]
  refine ⟨by simp [l3Evaluate], herr, ?_, hraw, ?_, hraw2, ?_⟩
  · rw [herr]
    exact append_ne_empty _ _ (by simp)
  · rw [hraw]
    exact append_ne_empty _ _ (by simp)
  · rw [hraw2]
    exact append_ne_empty _ _ (by simp)

/-- The request of the C8 witness. -/
def l3ReqW : Request :=
  { command := "make", segments := [{ capName := "make", args := [], tier := .build }],
    cwd := "", retry := false, hasRedirectOut := false,
    justification := "", safetyArg := "" }

/-- The invalid-decision reply of the C8 witness. -/
def l3RawInvalidW : String := "\x7b\"decision\":\"maybe\",\"reasoning\":\"x\"\x7d"

/-- Witness for C8: a transport error, a non-JSON reply, and a reply
carrying the decision label maybe. -/
theorem l3_error_handling_witness :
    (l3ReqW.retry = false
      ∧ parseL3Decision "not json" = .error "invalid JSON: syntax error"
      ∧ stripFences l3RawInvalidW = .ok l3RawInvalidW
      ∧ unmarshalL3Payload l3RawInvalidW = .ok ("maybe", "x")
      ∧ parseDecision "maybe" = .error "invalid decision maybe")
      ∧ (l3Evaluate { l3ReqW with retry := true } (.ok "whatever")
            = { decision := .allow, level := 3, reason := "--retry bypasses Level 3",
                ruleID := "" }
        ∧ l3Evaluate l3ReqW (.error "connection refused")
            = { decision := .escalate, level := 3,
                reason := "LLM error: " ++ "connection refused", ruleID := "" }
        ∧ (l3Evaluate l3ReqW (.error "connection refused")).reason ≠ ""
        ∧ l3Evaluate l3ReqW (.ok "not json")
            = { decision := .escalate, level := 3,
                reason := "unparseable LLM response: " ++ "invalid JSON: syntax error",
                ruleID := "" }
        ∧ (l3Evaluate l3ReqW (.ok "not json")).reason ≠ ""
        ∧ l3Evaluate l3ReqW (.ok l3RawInvalidW)
            = { decision := .escalate, level := 3,
                reason := "unparseable LLM response: " ++ "invalid decision maybe",
                ruleID := "" }
        ∧ (l3Evaluate l3ReqW (.ok l3RawInvalidW)).reason ≠ "") :=
  ⟨⟨rfl, rfl, rfl, rfl, rfl⟩,
   l3_error_handling l3ReqW (.ok "whatever") "connection refused" "not json"
     l3RawInvalidW l3RawInvalidW "maybe" "x" "invalid decision maybe"
     "invalid JSON: syntax error" rfl rfl rfl rfl rfl⟩

/-! ## C9: compound command execution -/

/-- A nonempty list has a last element. -/
theorem getLast_exists {α : Type} (a : α) (l : List α) :
    ∃ x, (a :: l).getLast? = some x := by
  induction l generalizing a with
  | nil => exact ⟨a, rfl⟩
  | cons b t ih =>
    obtain ⟨x, hx⟩ := ih b
    exact ⟨x, by rw [List.getLast?_cons_cons, hx]⟩

/-- The loop of `ExecuteCommand` computes the error of the last executed
step, per the claim-side skip relation. -/
theorem execGo_spec {P E : Type} (exec : P → Option E) :
    ∀ (steps : List (Step P)) (lastErr : Option E) (prevOp : Option String),
      execGo exec lastErr prevOp steps
        = (match (executedSteps exec lastErr
              ((prevOp :: steps.map (fun s => some s.op)).zip steps)).getLast? with
           | none => lastErr
           | some s => exec s.pipeline) := by
  intro steps
  induction steps with
  | nil => intro le po; rfl
  | cons s rest ih =>
    intro le po
    rw [show ((po :: (s :: rest).map (fun x => some x.op)).zip (s :: rest))
        = (po, s) :: ((some s.op :: rest.map (fun x => some x.op)).zip rest) from by
      simp]
    change (if claimSkip po le then execGo exec le (some s.op) rest
        else execGo exec (exec s.pipeline) (some s.op) rest) = _
    simp only [executedSteps]
    cases hskip : claimSkip po le with
    | true =>
      rw [if_pos rfl]
      exact ih le (some s.op)
    | false =>
      simp only [Bool.false_eq_true, if_false]
      rw [ih (exec s.pipeline) (some s.op)]
      cases hl : executedSteps exec (exec s.pipeline)
          ((some s.op :: rest.map (fun x => some x.op)).zip rest) with
      | nil => rfl
      | cons a l2 =>
        obtain ⟨x, hx⟩ := getLast_exists a l2
        rw [List.getLast?_cons_cons, hx]

/-- C9: `ExecuteCommand` processes the steps in order with a running last
error; a step after the first is skipped exactly when its predecessor
connector is AND-then with a pending error or OR-else without one
(SEQUENTIAL always runs); skipped steps leave the error unchanged; the
result is the error of the last executed step (nil when nothing ran). -/
theorem execute_command_spec {P E : Type} (exec : P → Option E)
    (steps : List (Step P)) :
    executeCommand exec steps
      = lastExecutedErr exec (executedSteps exec none (stepPairs steps)) := by
  have h := execGo_spec exec steps none none
  unfold executeCommand stepPairs lastExecutedErr
  exact h

/-! ## C5: daemon escalation issues a fresh token -/

/-- C5: when policy evaluation ends in Escalate at the final enabled
level, the daemon does not run the command; it issues a fresh approval
token bound to the request argv (stored with expiry now + ttl) and
returns it in the ExitResult reply, so a Validate of that token with the
same argv succeeds. -/
theorem daemon_escalate_issues_token
    (cfgRules : List (String × CapRuleConfig))
    (l2entries : Option (List PolicyEntry)) (l3resp : Option (Except String String))
    (req : Request) (argv : List String) (store : TokenStore) (tok : String)
    (now ttl : Nat) (code : Int)
    (hesc : (finalPolicy cfgRules l2entries l3resp req).decision = .escalate)
    (hfresh : lookupTok store tok = none) :
    (handleRequest cfgRules l2entries l3resp req argv store tok now ttl code).1.ran
        = false
      ∧ (handleRequest cfgRules l2entries l3resp req argv store tok now ttl
          code).1.policyEscalate = tok
      ∧ lookupTok (handleRequest cfgRules l2entries l3resp req argv store tok now ttl
          code).2 tok
          = some { command := req.command, args := argv, createdAt := now,
                   expiresAt := now + ttl }
      ∧ (validateTok (handleRequest cfgRules l2entries l3resp req argv store tok now
          ttl code).2 tok argv now).2
          = .ok { command := req.command, args := argv, createdAt := now,
                  expiresAt := now + ttl } := by
  have hreply : handleRequest cfgRules l2entries l3resp req argv store tok now ttl code
      = ({ ran := false, exitCode := 1, errText := "", policyDeny := "",
           policyEscalate := tok },
         issueTok store tok req.command argv now ttl) := by
    unfold handleRequest
    show ((match (finalPolicy cfgRules l2entries l3resp req).decision with
      | Decision.deny =>
        ({ ran := false, exitCode := 1,
           errText := "doit: policy: "
             ++ (finalPolicy cfgRules l2entries l3resp req).reason,
           policyDeny := (finalPolicy cfgRules l2entries l3resp req).ruleID,
           policyEscalate := "" }, store)
      | Decision.escalate =>
        ({ ran := false, exitCode := 1, errText := "", policyDeny := "",
           policyEscalate := tok }, issueTok store tok req.command argv now ttl)
      | Decision.allow =>
        ({ ran := true, exitCode := code, errText := "", policyDeny := "",
           policyEscalate := "" }, store)) : DaemonReply × TokenStore) = _
    rw [hesc]
  have hl : lookupTok (issueTok store tok req.command argv now ttl) tok
      = some { command := req.command, args := argv, createdAt := now,
               expiresAt := now + ttl } := by
    unfold issueTok lookupTok
    simp [List.find?]
  rw [hreply]
  refine ⟨rfl, rfl, hl, ?_⟩
  exact (validate_ok_iff _ _ _ _ _).mpr ⟨hl, Nat.le_add_right now ttl, rfl⟩

/-- The escalating request of the C5 witness. -/
def makeReqW : Request :=
  { command := "make", segments := [{ capName := "make", args := [], tier := .build }],
    cwd := "", retry := false, hasRedirectOut := false,
    justification := "", safetyArg := "" }

/-- Witness for C5: a build-tier request no rule decides, with Level 2
and Level 3 disabled, against an empty token store. -/
theorem daemon_escalate_issues_token_witness :
    ((finalPolicy [] none none makeReqW).decision = .escalate
      ∧ lookupTok [] "ab12" = none)
      ∧ ((handleRequest [] none none makeReqW ["make"] [] "ab12" 0 600 0).1.ran = false
        ∧ (handleRequest [] none none makeReqW ["make"] [] "ab12" 0 600
            0).1.policyEscalate = "ab12"
        ∧ lookupTok (handleRequest [] none none makeReqW ["make"] [] "ab12" 0 600
            0).2 "ab12"
            = some { command := makeReqW.command, args := ["make"], createdAt := 0,
                     expiresAt := 0 + 600 }
        ∧ (validateTok (handleRequest [] none none makeReqW ["make"] [] "ab12" 0 600
            0).2 "ab12" ["make"] 0).2
            = .ok { command := makeReqW.command, args := ["make"], createdAt := 0,
                    expiresAt := 0 + 600 }) :=
  ⟨⟨by decide, rfl⟩,
   daemon_escalate_issues_token [] none none makeReqW ["make"] [] "ab12" 0 600 0
     (by decide) rfl⟩

/-- Witness for C10: the one-line file whose single line is unparsable. -/
theorem newlogger_malformed_tail_witness :
    (([none] : List (Option Entry)) ≠ [] ∧ ([none] : List (Option Entry)).getLast? = some none)
      ∧ (newLogger [none] = { seq := 0, prevHash := genesisHash }
          ∧ (logStep (newLogger [none]) p0).2.seq = 1
          ∧ (logStep (newLogger [none]) p0).2.prevHash = genesisHash
          ∧ verifyLines ([none] ++ [some (logStep (newLogger [none]) p0).2]) ≠ none) :=
  ⟨⟨by simp, rfl⟩, newlogger_malformed_tail [none] p0 (by simp) rfl⟩

end Doit
